import Mathlib

/-!
Verification development for the rs-gfa2 GFA1/GFA2 parser and serializer.

The Rust sources are shallowly embedded: byte strings become `List Nat`
(each entry one byte value), fallible functions return `Option`/`Except`,
and functions that can abort the process (Rust `panic`) return `PRes`,
whose `panicked` constructor marks the abort.  The regular-expression
searches of the source (`regex::bytes::Regex::find` / `is_match` with
leftmost-first semantics on the five fixed patterns used by the code) are
embedded as direct scanning functions on byte lists.
-/

namespace RsGfa2

/-- The class `[!-~]` of printable, non-space ASCII bytes. -/
def isPrintable (b : Nat) : Bool := 0x21 ≤ b && b ≤ 0x7e

/-- ASCII whitespace, as recognized by `bstr`'s `trim` on ASCII input. -/
def isWs (b : Nat) : Bool := b = 0x20 || b = 0x09 || b = 0x0a || b = 0x0d || b = 0x0b || b = 0x0c

/-- ASCII decimal digit `[0-9]`. -/
def isDigit (b : Nat) : Bool := 0x30 ≤ b && b ≤ 0x39

/-- The sequence alphabet `[A-Za-z=.]` of `parse_sequence`. -/
def isSeqChar (b : Nat) : Bool :=
  (0x41 ≤ b && b ≤ 0x5a) || (0x61 ≤ b && b ≤ 0x7a) || b = 0x3d || b = 0x2e

/-- CIGAR operation characters `[MIDNSHPX=]` of `parse_overlap`. -/
def isCigarOp (b : Nat) : Bool :=
  b = 0x4d || b = 0x49 || b = 0x44 || b = 0x4e || b = 0x53 || b = 0x48 ||
  b = 0x50 || b = 0x58 || b = 0x3d

/-- Orientation marker bytes `+` and `-`. -/
def isOrient (b : Nat) : Bool := b = 0x2b || b = 0x2d

/-- Largest value of Rust's 64-bit `usize`. -/
def USIZE_MAX : Nat := 2 ^ 64 - 1

/-- Little-endian decimal digits of `n`, with explicit fuel so that the
definition evaluates inside the kernel. -/
def natDigitsAux : Nat → Nat → List Nat
  | 0, _ => []
  | fuel + 1, n => if n = 0 then [] else n % 10 :: natDigitsAux fuel (n / 10)

/-- Decimal representation of a natural number as ASCII digit bytes,
most significant digit first (Rust's `Display` for `usize`). -/
def natDecNats (n : Nat) : List Nat :=
  if n = 0 then [0x30] else ((natDigitsAux n n).reverse.map (fun d => d + 0x30))

/-- Value of a nonempty all-digit byte token, if it fits in `usize`;
models Rust's `str::parse::<usize>` on an unsigned digit string. -/
def decValue? (l : List Nat) : Option Nat :=
  if l ≠ [] ∧ l.all isDigit then
    if Nat.ofDigits 10 ((l.map (fun b => b - 0x30)).reverse) ≤ USIZE_MAX then
      some (Nat.ofDigits 10 ((l.map (fun b => b - 0x30)).reverse))
    else none
  else none

/-- Result of a Rust computation that can abort the process:
`ok` is a normal return, `panicked` models a `panic!` (or an
`unwrap` of `None`/`Err`, or an arithmetic-overflow abort). -/
inductive PRes (α : Type) : Type
  | ok (a : α) : PRes α
  | panicked : PRes α
deriving DecidableEq, Repr

/-- Modelled from the spec: the two-valued strand marker of
`gfa2::orientation` (module not present in the sources), parsed from a
single `+`/`-` character and printed back verbatim. -/
inductive Orientation : Type
  | Forward : Orientation
  | Backward : Orientation
deriving DecidableEq, Repr

/-- Modelled from the spec: `Orientation::from_bytes_plus_minus`, some
orientation iff the token is exactly `+` or `-`. -/
def Orientation.from_bytes_plus_minus (l : List Nat) : Option Orientation :=
  if l = [0x2b] then some .Forward
  else if l = [0x2d] then some .Backward
  else none

/-- Display of an orientation: the byte it was parsed from. -/
def Orientation.toNats : Orientation → List Nat
  | .Forward => [0x2b]
  | .Backward => [0x2d]

/-- Modelled from the spec: the field-level error kinds of the missing
`parser_gfa2::error` module (missing field, field failed its sub-grammar,
integer-parse failure, invalid UTF-8, id/orientation failures). -/
inductive ParseFieldError : Type
  | MissingFields : ParseFieldError
  | InvalidField (name : String) : ParseFieldError
  | UintIdError : ParseFieldError
  | Utf8Error : ParseFieldError
  | OrientationError : ParseFieldError
  | IntParseError : ParseFieldError
deriving DecidableEq, Repr

/-- Modelled from the spec: the line-level error kinds of the missing
`parser_gfa2::error` module; `InvalidLine` wraps a field-level error
together with the raw offending bytes. -/
inductive ParseError : Type
  | EmptyLine : ParseError
  | UnknownLineType : ParseError
  | InvalidLine (e : ParseFieldError) (raw : List Nat) : ParseError
  | IoError : ParseError
  | ExtensionError : ParseError
deriving DecidableEq, Repr

/-- Modelled from the spec: the tolerance policy of the missing
`parser_gfa2::error` module. -/
inductive ParserTolerance : Type
  | IgnoreAll : ParserTolerance
  | Safe : ParserTolerance
  | Pedantic : ParserTolerance
deriving DecidableEq, Repr

/-- Modelled from the spec: `ParseError::can_safely_continue` — under
`IgnoreAll` every failure is skipped, under `Safe` only the recoverable
kinds (unknown line type, empty line) are skipped, under `Pedantic`
every failure is fatal. -/
def ParseError.can_safely_continue (e : ParseError) (tol : ParserTolerance) : Bool :=
  match tol with
  | .IgnoreAll => true
  | .Safe =>
    match e with
    | .EmptyLine => true
    | .UnknownLineType => true
    | _ => false
  | .Pedantic => false

/-- `bstr`'s `trim` on ASCII input: drop whitespace from both ends. -/
def trimNats (l : List Nat) : List Nat :=
  ((l.dropWhile isWs).reverse.dropWhile isWs).reverse

/-- Split a byte line at tab bytes; on the empty list this yields one
empty field, matching `bstr::split_str` on an empty haystack. -/
def splitTab : List Nat → List (List Nat)
  | [] => [[]]
  | b :: bs =>
    if b = 0x09 then [] :: splitTab bs
    else
      match splitTab bs with
      | t :: ts => (b :: t) :: ts
      | [] => [[b]]

/-- Leftmost-first `Regex::find` of a one-class repetition `[c]+`:
skip bytes until the first byte of the class, then take the maximal run.
Used for `[!-~]+`, for `[!-~]+|\*` (`*` lies inside `[!-~]` and the run
alternative is tried first) and for `[!-~]+(,[!-~]+)*` (`,` lies inside
`[!-~]`, so the extra groups never extend the leftmost run). -/
def findRun (p : Nat → Bool) : List Nat → Option (List Nat)
  | [] => none
  | b :: bs => if p b then some ((b :: bs).takeWhile p) else findRun p bs

/-- Leftmost-first `Regex::find` of `\*|[A-Za-z=.]+` (`parse_sequence`):
at each position a literal `*` is preferred, else a run of the sequence
class. -/
def seqFind : List Nat → Option (List Nat)
  | [] => none
  | b :: bs =>
    if b = 0x2a then some [0x2a]
    else if isSeqChar b then some ((b :: bs).takeWhile isSeqChar)
    else seqFind bs

/-- Rest of one CIGAR unit after at least one digit was consumed:
keep consuming digits, then require one operation character. -/
def unitRest : List Nat → Option (List Nat × List Nat)
  | [] => none
  | c :: cs =>
    if isDigit c then
      match unitRest cs with
      | some (u, r) => some (c :: u, r)
      | none => none
    else if isCigarOp c then some ([c], cs)
    else none

/-- Strip one CIGAR unit `[0-9]+[MIDNSHPX=]` from the front: the maximal
digit run followed by one operation character. -/
def unitSplit : List Nat → Option (List Nat × List Nat)
  | [] => none
  | b :: bs =>
    if isDigit b then
      match unitRest bs with
      | some (u, r) => some (b :: u, r)
      | none => none
    else none

/-- Greedy repetition `([0-9]+[MIDNSHPX=])+` with explicit fuel:
returns the matched prefix (possibly empty) and the remainder. -/
def cigarChainF : Nat → List Nat → List Nat × List Nat
  | 0, l => ([], l)
  | fuel + 1, l =>
    match unitSplit l with
    | none => ([], l)
    | some (u, r) =>
      let p := cigarChainF fuel r
      (u ++ p.1, p.2)

/-- Leftmost-first `Regex::find` of `\*|([0-9]+[MIDNSHPX=])+`
(`parse_overlap`). -/
def overlapFind : List Nat → Option (List Nat)
  | [] => none
  | b :: bs =>
    if b = 0x2a then some [0x2a]
    else
      let c := cigarChainF (b :: bs).length (b :: bs)
      if c.1 = [] then overlapFind bs else some c.1

/-- Greedy repetition `(,[0-9]+[MIDNSHPX=])*` with explicit fuel. -/
def commaChainF : Nat → List Nat → List Nat × List Nat
  | 0, l => ([], l)
  | fuel + 1, l =>
    match l with
    | b :: r =>
      if b = 0x2c then
        match unitSplit r with
        | some (u, r2) =>
          let p := commaChainF fuel r2
          (b :: (u ++ p.1), p.2)
        | none => ([], l)
      else ([], l)
    | [] => ([], l)

/-- One attempt of `\*|[0-9]+[MIDNSHPX=](,[0-9]+[MIDNSHPX=])*` at the
current position (`parse_path_overlap`). -/
def pathOvAt (l : List Nat) : Option (List Nat) :=
  match l with
  | [] => none
  | b :: _ =>
    if b = 0x2a then some [0x2a]
    else
      match unitSplit l with
      | none => none
      | some (u, r) => some (u ++ (commaChainF r.length r).1)

/-- Leftmost-first `Regex::find` of the path-overlap pattern. -/
def pathOverlapFind : List Nat → Option (List Nat)
  | [] => none
  | b :: bs =>
    match pathOvAt (b :: bs) with
    | some m => some m
    | none => pathOverlapFind bs

/-- Core of the `[!-~]+[+-]` match at a fixed start: given the reversed
printable run, drop the trailing non-orientation bytes; a match needs an
orientation byte preceded by at least one run byte. -/
def refCore (rrev : List Nat) : Option (List Nat) :=
  match rrev.dropWhile (fun b => !(isOrient b)) with
  | [] => none
  | o :: rest => if rest = [] then none else some ((o :: rest).reverse)

/-- One attempt of `[!-~]+[+-]` at the current position: the printable
run truncated after its last orientation byte (backtracking of the
greedy `[!-~]+`). -/
def refMatchAt (l : List Nat) : Option (List Nat) :=
  refCore (l.takeWhile isPrintable).reverse

/-- Leftmost-first `Regex::find` of `[!-~]+[+-]`. -/
def refFind : List Nat → Option (List Nat)
  | [] => none
  | b :: bs =>
    match refMatchAt (b :: bs) with
    | some m => some m
    | none => refFind bs

/-- `get_code_from_char` of `gfa2/traits.rs` on one byte: a digit
character yields its numeric value (it parses as an integer); any other
single ASCII character in the printable-or-space range is found at its
ASCII position in the `CHARS` table; every other byte makes the source
panic (control characters and `DEL` appear in `CHARS` only as multi-byte
mnemonics, and non-ASCII input fails the `to_str`/position `unwrap`s). -/
def charCode (b : Nat) : Option Nat :=
  if 0x30 ≤ b ∧ b ≤ 0x39 then some (b - 0x30)
  else if 0x20 ≤ b ∧ b ≤ 0x7e then some b
  else none

/-- The concatenation loop of the `usize` `SegmentId` impls: every
byte's code rendered in decimal and concatenated; `none` when some byte
makes the source panic. -/
def encodeAll (l : List Nat) : Option (List Nat) :=
  match l with
  | [] => some []
  | b :: bs =>
    match charCode b, encodeAll bs with
    | some c, some rest => some (natDecNats c ++ rest)
    | _, _ => none

namespace UsizeId

/-- `<usize as SegmentId>::parse_id` (gfa2/traits.rs:50): if the token
contains a `[!-~]+` match, concatenate the per-character codes and parse
the digit string as `usize` when it has 1..=20 digits; every failure
branch is a `panic!` (no-match, unencodable character, more than 20
digits, or a 20-digit value above `usize::MAX` hitting the `unwrap`). -/
def parse_id (input : List Nat) : PRes (Option Nat) :=
  if input.any isPrintable then
    match encodeAll input with
    | none => .panicked
    | some res =>
      if 1 ≤ res.length ∧ res.length ≤ 20 then
        match decValue? res with
        | some v => .ok (some v)
        | none => .panicked
      else .panicked
  else .panicked

/-- `<usize as SegmentId>::parse_opt_id` (gfa2/traits.rs:80): identical
to `parse_id` except for the regex `[!-~]+|\*`, whose match condition
coincides with `[!-~]+` because `*` is itself in `[!-~]`. -/
def parse_opt_id (input : List Nat) : PRes (Option Nat) :=
  if input.any isPrintable then
    match encodeAll input with
    | none => .panicked
    | some res =>
      if 1 ≤ res.length ∧ res.length ≤ 20 then
        match decValue? res with
        | some v => .ok (some v)
        | none => .panicked
      else .panicked
  else .panicked

/-- `<usize as SegmentId>::parse_ref` (gfa2/traits.rs:110): requires an
`[!-~]+[+-]` match somewhere in the token, then inspects the token's
final byte: `+`/`-` select an orientation digit 0/1, anything else
panics; the token body (all bytes but the last) is encoded as in
`parse_id`, the orientation digit is appended, and the result is parsed
with `.ok()` (so a 21-digit overflow yields `None` rather than a
panic), while a body code string longer than 20 digits panics. -/
def parse_ref (input : List Nat) : PRes (Option Nat) :=
  if (refFind input).isSome then
    match input.getLast? with
    | none => .panicked
    | some b =>
      if isOrient b then
        match encodeAll input.dropLast with
        | none => .panicked
        | some res =>
          if 1 ≤ res.length ∧ res.length ≤ 20 then
            .ok (decValue? (res ++ [if b = 0x2b then 0x30 else 0x31]))
          else .panicked
      else .panicked
  else .panicked

end UsizeId

namespace BStrId

/-- `<BString as SegmentId>::parse_id` (gfa2/traits.rs:150): the
leftmost `[!-~]+` match, or `None` when no printable byte occurs. -/
def parse_id (input : List Nat) : Option (List Nat) :=
  findRun isPrintable input

/-- `<BString as SegmentId>::parse_opt_id` (gfa2/traits.rs:157): the
leftmost `[!-~]+|\*` match, which coincides with the `[!-~]+` search. -/
def parse_opt_id (input : List Nat) : Option (List Nat) :=
  findRun isPrintable input

/-- `<BString as SegmentId>::parse_ref` (gfa2/traits.rs:164): the
leftmost `[!-~]+[+-]` match, orientation byte included — the source
keeps the whole match and never splits off the orientation. -/
def parse_ref (input : List Nat) : Option (List Nat) :=
  refFind input

end BStrId

/-- Modelled from the spec: the typed payload of one optional field of
the missing `tag` module — type discriminants `A,i,f,Z,H,B`. -/
inductive OptFieldVal : Type
  | A (v : Nat) : OptFieldVal
  | I (v : Int) : OptFieldVal
  | F (v : List Nat) : OptFieldVal
  | Z (v : List Nat) : OptFieldVal
  | H (v : List Nat) : OptFieldVal
  | B (v : List Nat) : OptFieldVal
deriving DecidableEq, Repr

/-- Modelled from the spec: one optional field `TAG:TYPE:VALUE`. -/
structure OptField : Type where
  tag : List Nat
  value : OptFieldVal
deriving DecidableEq, Repr

/-- Signed 64-bit integer literal: optional sign then digits, in range. -/
def parseI64 (l : List Nat) : Option Int :=
  let core := fun (neg : Bool) (ds : List Nat) =>
    match decValue?' ds with
    | some v =>
      let x : Int := if neg then -(v : Int) else (v : Int)
      if -(2 ^ 63 : Int) ≤ x ∧ x ≤ 2 ^ 63 - 1 then some x else none
    | none => none
  match l with
  | 0x2b :: rest => core false rest
  | 0x2d :: rest => core true rest
  | _ => core false l
where
  /-- digit-string value without the `usize` bound. -/
  decValue?' (ds : List Nat) : Option Nat :=
    if ds ≠ [] ∧ ds.all isDigit then
      some (Nat.ofDigits 10 ((ds.map (fun b => b - 0x30)).reverse))
    else none

/-- Hex digit `[0-9A-Fa-f]`. -/
def isHexDigit (b : Nat) : Bool :=
  isDigit b || (0x41 ≤ b && b ≤ 0x46) || (0x61 ≤ b && b ≤ 0x66)

/-- Nats permitted in a float literal (coarse model). -/
def isFloatNat (b : Nat) : Bool :=
  isDigit b || b = 0x2e || b = 0x2b || b = 0x2d || b = 0x65 || b = 0x45

/-- Printable byte class for `Z` values: printable, space allowed. -/
def isZNat (b : Nat) : Bool := 0x20 ≤ b && b ≤ 0x7e

/-- Modelled from the spec: `OptField::parse` of the missing `tag`
module — `None` unless the token is `TAGNAME:TYPECHAR:VALUE` with a
two-byte printable tag name, a type character in `{A,i,f,Z,H,B}`, and a
value matching that type's sub-grammar. -/
def OptField.parse (t : List Nat) : Option OptField :=
  match t with
  | t1 :: t2 :: 0x3a :: ty :: 0x3a :: rest =>
    if isPrintable t1 ∧ isPrintable t2 then
      let tg := [t1, t2]
      if ty = 0x41 then
        match rest with
        | [b] => if isPrintable b then some ⟨tg, .A b⟩ else none
        | _ => none
      else if ty = 0x69 then
        match parseI64 rest with
        | some v => some ⟨tg, .I v⟩
        | none => none
      else if ty = 0x66 then
        if rest ≠ [] ∧ rest.all isFloatNat then some ⟨tg, .F rest⟩ else none
      else if ty = 0x5a then
        if rest.all isZNat then some ⟨tg, .Z rest⟩ else none
      else if ty = 0x48 then
        if rest ≠ [] ∧ rest.length % 2 = 0 ∧ rest.all isHexDigit then
          some ⟨tg, .H rest⟩
        else none
      else if ty = 0x42 then
        match rest with
        | st :: vals =>
          if (st = 0x63 ∨ st = 0x43 ∨ st = 0x73 ∨ st = 0x53 ∨ st = 0x69 ∨
              st = 0x49 ∨ st = 0x66) ∧ vals ≠ [] then
            some ⟨tg, .B rest⟩
          else none
        | [] => none
      else none
    else none
  | _ => none

/-! ## GFA1 record containers, at the `BString` identifier strategy and
the discard (`()`) optional-field strategy. -/

/-- `gfa1::Header` with the discard tag strategy. -/
structure Header : Type where
  version : Option (List Nat)
deriving DecidableEq, Repr

/-- `gfa1::Segment<BString, ()>`. -/
structure Segment : Type where
  name : List Nat
  sequence : List Nat
deriving DecidableEq, Repr

/-- `gfa1::Link<BString, ()>`. -/
structure Link : Type where
  from_segment : List Nat
  from_orient : Orientation
  to_segment : List Nat
  to_orient : Orientation
  overlap : List Nat
deriving DecidableEq, Repr

/-- `gfa1::Containment<BString, ()>`. -/
structure Containment : Type where
  container_name : List Nat
  container_orient : Orientation
  contained_name : List Nat
  contained_orient : Orientation
  pos : Nat
  overlap : List Nat
deriving DecidableEq, Repr

/-- `gfa1::Path<BString, ()>`: the reference list is stored unparsed. -/
structure Path : Type where
  path_name : List Nat
  segment_names : List Nat
  overlaps : List Nat
deriving DecidableEq, Repr

/-- `gfa1::Line<BString, ()>`. -/
inductive GLine : Type
  | header (h : Header) : GLine
  | segment (s : Segment) : GLine
  | link (l : Link) : GLine
  | containment (c : Containment) : GLine
  | path (p : Path) : GLine
deriving DecidableEq, Repr

/-- `gfa1::GFA<BString, ()>`. -/
structure GFA : Type where
  headers : List Header := []
  segments : List Segment := []
  links : List Link := []
  containments : List Containment := []
  paths : List Path := []
deriving DecidableEq, Repr

/-- `GFA::insert_line`: push into the matching sequence. -/
def GFA.insert_line (g : GFA) : GLine → GFA
  | .header h => { g with headers := g.headers ++ [h] }
  | .segment s => { g with segments := g.segments ++ [s] }
  | .link l => { g with links := g.links ++ [l] }
  | .containment c => { g with containments := g.containments ++ [c] }
  | .path p => { g with paths := g.paths ++ [p] }

/-! ## Display impls (gfa1.rs); with the discard tag strategy the tag
fold contributes nothing, leaving the trailing tab of the format
string. -/

/-- `Display for Header` (gfa1.rs:213). -/
def serHeader (h : Header) : List Nat :=
  match h.version with
  | some v => [0x48, 0x09] ++ v ++ [0x09]
  | none => [0x48]

/-- `Display for Segment` (gfa1.rs:264). -/
def serSegment (s : Segment) : List Nat :=
  [0x53, 0x09] ++ s.name ++ [0x09] ++ s.sequence ++ [0x09]

/-- `Display for Link` (gfa1.rs:325). -/
def serLink (l : Link) : List Nat :=
  [0x4c, 0x09] ++ l.from_segment ++ [0x09] ++ l.from_orient.toNats ++ [0x09] ++
    l.to_segment ++ [0x09] ++ l.to_orient.toNats ++ [0x09] ++ l.overlap ++ [0x09]

/-- `Display for Containment` (gfa1.rs:372). -/
def serContainment (c : Containment) : List Nat :=
  [0x43, 0x09] ++ c.container_name ++ [0x09] ++ c.container_orient.toNats ++ [0x09] ++
    c.contained_name ++ [0x09] ++ c.contained_orient.toNats ++ [0x09] ++
    natDecNats c.pos ++ [0x09] ++ c.overlap ++ [0x09]

/-- `Display for Path` (gfa1.rs:476). -/
def serPath (p : Path) : List Nat :=
  [0x50, 0x09] ++ p.path_name ++ [0x09] ++ p.segment_names ++ [0x09] ++
    p.overlaps ++ [0x09]

/-- Serialization of a wrapped line, by record kind. -/
def serGLine : GLine → List Nat
  | .header h => serHeader h
  | .segment s => serSegment s
  | .link l => serLink l
  | .containment c => serContainment c
  | .path p => serPath p

/-! ## The GFA1 line parser (parser_gfa1.rs), over tab-split token
lists in place of the Rust field iterator. -/

/-- `next_field` (parser_gfa1.rs:283): the next token or
`MissingFields`. -/
def next_field (toks : List (List Nat)) :
    Except ParseFieldError (List Nat × List (List Nat)) :=
  match toks with
  | [] => .error .MissingFields
  | t :: ts => .ok (t, ts)

/-- `parse_orientation` (parser_gfa1.rs:291); the error kind of the
missing `Orientation::parse_error` is modelled from the spec as an
orientation-field failure. -/
def parse_orientation (toks : List (List Nat)) :
    Except ParseFieldError (Orientation × List (List Nat)) := do
  let (t, ts) ← next_field toks
  match Orientation.from_bytes_plus_minus t with
  | some o => .ok (o, ts)
  | none => .error .OrientationError

/-- `SegmentId::parse_next` at `BString` (gfa2/traits.rs:19): next
token through `parse_id`, failing with `<BString as SegmentId>::ERROR`
(`Utf8Error`). -/
def parse_next_id (toks : List (List Nat)) :
    Except ParseFieldError (List Nat × List (List Nat)) := do
  let (t, ts) ← next_field toks
  match BStrId.parse_id t with
  | some n => .ok (n, ts)
  | none => .error .Utf8Error

/-- `parse_sequence` (parser_gfa1.rs:344). -/
def parse_sequence (toks : List (List Nat)) :
    Except ParseFieldError (List Nat × List (List Nat)) := do
  let (t, ts) ← next_field toks
  match seqFind t with
  | some s => .ok (s, ts)
  | none => .error (.InvalidField "Sequence")

/-- `parse_overlap` (parser_gfa1.rs:329). -/
def parse_overlap (toks : List (List Nat)) :
    Except ParseFieldError (List Nat × List (List Nat)) := do
  let (t, ts) ← next_field toks
  match overlapFind t with
  | some s => .ok (s, ts)
  | none => .error (.InvalidField "Overlap")

/-- `parse_path_overlap` (parser_gfa1.rs:447). -/
def parse_path_overlap (toks : List (List Nat)) :
    Except ParseFieldError (List Nat × List (List Nat)) := do
  let (t, ts) ← next_field toks
  match pathOverlapFind t with
  | some s => .ok (s, ts)
  | none => .error (.InvalidField "Overlap")

/-- `parse_segment_names` (parser_gfa1.rs:465); the pattern
`[!-~]+(,[!-~]+)*` searches like `[!-~]+` since `,` is printable. -/
def parse_segment_names (toks : List (List Nat)) :
    Except ParseFieldError (List Nat × List (List Nat)) := do
  let (t, ts) ← next_field toks
  match findRun isPrintable t with
  | some s => .ok (s, ts)
  | none => .error (.InvalidField "Segment names")

/-- Rust `str::parse::<usize>` on a field token: optional `+` sign,
then digits within the 64-bit range; a non-UTF8 token fails earlier at
`to_str`. -/
def parse_usize_tok (t : List Nat) : Except ParseFieldError Nat :=
  if t.any (fun b => 0x80 ≤ b) then .error .Utf8Error
  else
    let core :=
      match t with
      | b :: rest => if b = 0x2b then decValue? rest else decValue? t
      | [] => decValue? t
    match core with
    | some v => .ok v
    | none => .error .IntParseError

/-- `Header::parse_line` (parser_gfa1.rs:308): the version is the
payload of the first token when it parses as a `Z`-typed tag. -/
def Header.parse_line (toks : List (List Nat)) : Except ParseFieldError Header := do
  let (next, _) ← next_field toks
  let version : Option (List Nat) :=
    match OptField.parse next with
    | some f =>
      match f.value with
      | .Z v => some v
      | _ => none
    | none => none
  .ok ⟨version⟩

/-- `Segment::parse_line` (parser_gfa1.rs:366). -/
def Segment.parse_line (toks : List (List Nat)) : Except ParseFieldError Segment := do
  let (name, toks) ← parse_next_id toks
  let (sq, _) ← parse_sequence toks
  .ok ⟨name, sq⟩

/-- `Link::parse_line` (parser_gfa1.rs:389). -/
def Link.parse_line (toks : List (List Nat)) : Except ParseFieldError Link := do
  let (fs, toks) ← parse_next_id toks
  let (fo, toks) ← parse_orientation toks
  let (ts, toks) ← parse_next_id toks
  let (tto, toks) ← parse_orientation toks
  let (ov, _) ← parse_overlap toks
  .ok ⟨fs, fo, ts, tto, ov⟩

/-- `Containment::parse_line` (parser_gfa1.rs:419). -/
def Containment.parse_line (toks : List (List Nat)) :
    Except ParseFieldError Containment := do
  let (cn, toks) ← parse_next_id toks
  let (co, toks) ← parse_orientation toks
  let (dn, toks) ← parse_next_id toks
  let (dord, toks) ← parse_orientation toks
  let (post, toks) ← next_field toks
  let pos ← parse_usize_tok post
  let (ov, _) ← parse_overlap toks
  .ok ⟨cn, co, dn, dord, pos, ov⟩

/-- `Path::parse_line` (parser_gfa1.rs:488): the path name goes through
the `BString` identifier parser, the reference list and the overlap
list are regex-found and stored unparsed. -/
def Path.parse_line (toks : List (List Nat)) : Except ParseFieldError Path := do
  let (nm, toks) ← parse_next_id toks
  let (sn, toks) ← parse_segment_names toks
  let (ov, _) ← parse_path_overlap toks
  .ok ⟨nm, sn, ov⟩

/-- The per-kind switches of `GFAParser` (parser_gfa1.rs:107). -/
structure ParserCfg : Type where
  headers : Bool
  segments : Bool
  links : Bool
  containments : Bool
  paths : Bool
deriving DecidableEq, Repr

/-- `GFAParserBuilder::all` (parser_gfa1.rs:35). -/
def ParserCfg.all : ParserCfg := ⟨true, true, true, true, true⟩

/-- The record-kind dispatch of `GFAParser::parse_gfa_line`
(parser_gfa1.rs:140): `H` lines are dispatched without consulting the
`headers` switch, exactly as in the source; `S`, `L`, `C`, `P` require
their switch; everything else is `UnknownLineType`.  Field-level
failures are wrapped with the raw input bytes (`invalid_line`). -/
def dispatch (cfg : ParserCfg) (bytes : List Nat) (hdr : List Nat)
    (rest : List (List Nat)) : Except ParseError GLine :=
  if hdr = [0x48] then
    match Header.parse_line rest with
    | .ok x => .ok (.header x)
    | .error e => .error (.InvalidLine e bytes)
  else if hdr = [0x53] ∧ cfg.segments then
    match Segment.parse_line rest with
    | .ok x => .ok (.segment x)
    | .error e => .error (.InvalidLine e bytes)
  else if hdr = [0x4c] ∧ cfg.links then
    match Link.parse_line rest with
    | .ok x => .ok (.link x)
    | .error e => .error (.InvalidLine e bytes)
  else if hdr = [0x43] ∧ cfg.containments then
    match Containment.parse_line rest with
    | .ok x => .ok (.containment x)
    | .error e => .error (.InvalidLine e bytes)
  else if hdr = [0x50] ∧ cfg.paths then
    match Path.parse_line rest with
    | .ok x => .ok (.path x)
    | .error e => .error (.InvalidLine e bytes)
  else .error .UnknownLineType

/-- `GFAParser::parse_gfa_line` (parser_gfa1.rs:132): trim, split at
tabs, dispatch on the first token. -/
def parse_gfa_line (cfg : ParserCfg) (bytes : List Nat) : Except ParseError GLine :=
  match splitTab (trimNats bytes) with
  | [] => .error .EmptyLine
  | hdr :: rest => dispatch cfg bytes hdr rest

/-- The loop body of `GFAParser::parse_lines` (parser_gfa1.rs:152). -/
def parse_lines_go (cfg : ParserCfg) (tol : ParserTolerance) (g : GFA) :
    List (List Nat) → Except ParseError GFA
  | [] => .ok g
  | l :: ls =>
    match parse_gfa_line cfg l with
    | .ok parsed => parse_lines_go cfg tol (g.insert_line parsed) ls
    | .error e =>
      if e.can_safely_continue tol then parse_lines_go cfg tol g ls
      else .error e

/-- `GFAParser::parse_lines` (parser_gfa1.rs:152). -/
def parse_lines (cfg : ParserCfg) (tol : ParserTolerance)
    (lines : List (List Nat)) : Except ParseError GFA :=
  parse_lines_go cfg tol {} lines

/-- A file path, reduced to the attribute `parse_file` reads: its
extension (as UTF-8 bytes), when it has one. -/
structure FsPath : Type where
  ext : Option (List Nat)

/-- `GFAParser::parse_file` (parser_gfa1.rs:196): the file is opened
first (`contents = none` models a failing open and yields the I/O
error before the extension is ever looked at); the extension option is
then `unwrap`ped — a path with no extension panics — and compared with
the allow-list `gfa2 | gfa`; only then are the lines parsed under the
tolerance policy. -/
def parse_file (cfg : ParserCfg) (tol : ParserTolerance) (path : FsPath)
    (contents : Option (List (List Nat))) : PRes (Except ParseError GFA) :=
  match contents with
  | none => .ok (.error .IoError)
  | some lines =>
    match path.ext with
    | none => .panicked
    | some e =>
      if e = [0x67, 0x66, 0x61, 0x32] ∨ e = [0x67, 0x66, 0x61] then
        .ok (parse_lines cfg tol lines)
      else .ok (.error .ExtensionError)

/-! ## The lazy reference-list iterators (gfa1.rs `Path::iter`,
gfa2.rs `GroupO::iter`, at `BString`). -/

/-- Split at an arbitrary separator byte (`bstr::split_str` on a
one-byte needle). -/
def splitOnNat (sep : Nat) : List Nat → List (List Nat)
  | [] => [[]]
  | b :: bs =>
    if b = sep then [] :: splitOnNat sep bs
    else
      match splitOnNat sep bs with
      | t :: ts => (b :: t) :: ts
      | [] => [[b]]

/-- `Path::segment_id_ref` (gfa1.rs:453) and the identical
`GroupO::segment_id_ref` (gfa2.rs:464): index the element's final byte
(panicking on an empty element through the `len - 1` underflow /
out-of-bounds index), match it against `+`/`-` (panicking on anything
else), and return the element without its final byte, paired with the
orientation. -/
def segment_id_ref (input : List Nat) : PRes (List Nat × Orientation) :=
  match input.getLast? with
  | none => .panicked
  | some b =>
    if b = 0x2b then .ok (input.dropLast, .Forward)
    else if b = 0x2d then .ok (input.dropLast, .Backward)
    else .panicked

/-- Materialize a lazy iterator of panicking elements: the list of all
elements when none panics, `panicked` as soon as advancing hits one. -/
def seqPRes {α : Type} : List (PRes α) → PRes (List α)
  | [] => .ok []
  | .ok a :: rest =>
    match seqPRes rest with
    | .ok as2 => .ok (a :: as2)
    | .panicked => .panicked
  | .panicked :: _ => .panicked

/-- `Path::iter` (gfa1.rs:449): a fresh pass over the stored reference
list, split at commas, each element through `segment_id_ref`. -/
def Path.iter (p : Path) : List (PRes (List Nat × Orientation)) :=
  (splitOnNat 0x2c p.segment_names).map segment_id_ref

/-- The full materialization of `Path::iter`; `panicked` exactly when
some element aborts the iterator. -/
def Path.iterAll (p : Path) : PRes (List (List Nat × Orientation)) :=
  seqPRes p.iter

/-- `gfa2::GroupO<BString, ()>`: id and unparsed space-separated
reference list. -/
structure GroupO : Type where
  id : List Nat
  var_field : List Nat
deriving DecidableEq, Repr

/-- `GroupO::iter` (gfa2.rs:460): split at spaces, each element through
`segment_id_ref`. -/
def GroupO.iter (g : GroupO) : List (PRes (List Nat × Orientation)) :=
  (splitOnNat 0x20 g.var_field).map segment_id_ref

/-- The full materialization of `GroupO::iter`. -/
def GroupO.iterAll (g : GroupO) : PRes (List (List Nat × Orientation)) :=
  seqPRes g.iter

/-! ## Valid field values

The constraints under which a record field is "constructable from valid
field values": exactly the sub-grammars of §4.3 of the format, as whole-
token matches. -/

/-- A valid identifier: a nonempty `[!-~]` token. -/
def ValidId (l : List Nat) : Prop := l ≠ [] ∧ ∀ b ∈ l, isPrintable b = true

/-- A valid sequence field: `*` or a nonempty `[A-Za-z=.]` token. -/
def ValidSeq (l : List Nat) : Prop :=
  l = [0x2a] ∨ (l ≠ [] ∧ ∀ b ∈ l, isSeqChar b = true)

/-- Whole-token membership in `([0-9]+[MIDNSHPX=])+`, decided by the
greedy chain consuming the entire token. -/
def fullCigar (l : List Nat) : Bool :=
  decide (l ≠ []) && ((cigarChainF l.length l).2.isEmpty)

/-- A valid link/containment overlap: `*` or a full CIGAR token. -/
def ValidOverlap (l : List Nat) : Prop := l = [0x2a] ∨ fullCigar l = true

/-- Whole-token membership in
`\*|[0-9]+[MIDNSHPX=](,[0-9]+[MIDNSHPX=])*`. -/
def fullPathOverlap (l : List Nat) : Bool :=
  l = [0x2a] ||
    (match unitSplit l with
     | some (_, r) => (commaChainF r.length r).2.isEmpty
     | none => false)

/-- A valid path overlap-list field. -/
def ValidPathOverlap (l : List Nat) : Prop := fullPathOverlap l = true

instance (l : List Nat) : Decidable (ValidId l) := by
  unfold ValidId; infer_instance

instance (l : List Nat) : Decidable (ValidSeq l) := by
  unfold ValidSeq; infer_instance

instance (l : List Nat) : Decidable (ValidOverlap l) := by
  unfold ValidOverlap; infer_instance

instance (l : List Nat) : Decidable (ValidPathOverlap l) := by
  unfold ValidPathOverlap; infer_instance

/-! ## Nat-class facts -/

theorem printable_not_ws {b : Nat} (h : isPrintable b = true) : isWs b = false := by
  simp only [isPrintable, Bool.and_eq_true, decide_eq_true_eq] at h
  simp only [isWs, Bool.or_eq_false_iff, decide_eq_false_iff_not]
  omega

theorem printable_ne_tab {b : Nat} (h : isPrintable b = true) : b ≠ 0x09 := by
  simp only [isPrintable, Bool.and_eq_true, decide_eq_true_eq] at h
  omega

theorem seqChar_printable {b : Nat} (h : isSeqChar b = true) : isPrintable b = true := by
  simp only [isSeqChar, Bool.or_eq_true, Bool.and_eq_true, decide_eq_true_eq] at h
  simp only [isPrintable, Bool.and_eq_true, decide_eq_true_eq]
  omega

theorem digit_printable {b : Nat} (h : isDigit b = true) : isPrintable b = true := by
  simp only [isDigit, Bool.and_eq_true, decide_eq_true_eq] at h
  simp only [isPrintable, Bool.and_eq_true, decide_eq_true_eq]
  omega

theorem cigarOp_printable {b : Nat} (h : isCigarOp b = true) : isPrintable b = true := by
  simp only [isCigarOp, Bool.or_eq_true, decide_eq_true_eq] at h
  simp only [isPrintable, Bool.and_eq_true, decide_eq_true_eq]
  omega

theorem digit_ne_star {b : Nat} (h : isDigit b = true) : b ≠ 0x2a := by
  simp only [isDigit, Bool.and_eq_true, decide_eq_true_eq] at h
  omega

theorem seqChar_ne_star {b : Nat} (h : isSeqChar b = true) : b ≠ 0x2a := by
  simp only [isSeqChar, Bool.or_eq_true, Bool.and_eq_true, decide_eq_true_eq] at h
  omega

/-! ## Search-function lemmas -/

theorem findRun_all {p : Nat → Bool} {l : List Nat} (hne : l ≠ [])
    (hall : ∀ b ∈ l, p b = true) : findRun p l = some l := by
  cases l with
  | nil => exact absurd rfl hne
  | cons b bs =>
    have hb : p b = true := hall b (List.mem_cons_self ..)
    simp only [findRun, hb, if_true]
    rw [List.takeWhile_eq_self_iff.mpr hall]

theorem seqFind_valid {l : List Nat} (h : ValidSeq l) : seqFind l = some l := by
  rcases h with h | ⟨hne, hall⟩
  · subst h; rfl
  · cases l with
    | nil => exact absurd rfl hne
    | cons b bs =>
      have hb : isSeqChar b = true := hall b (List.mem_cons_self ..)
      simp only [seqFind, seqChar_ne_star hb, if_false, hb, if_true]
      rw [List.takeWhile_eq_self_iff.mpr hall]

theorem unitRest_spec {l u r : List Nat} (h : unitRest l = some (u, r)) :
    u ++ r = l ∧ u ≠ [] ∧ ∀ b ∈ u, isDigit b = true ∨ isCigarOp b = true := by
  induction l generalizing u r with
  | nil => simp [unitRest] at h
  | cons c cs ih =>
    by_cases hc : isDigit c = true
    · rw [unitRest, if_pos hc] at h
      cases hrec : unitRest cs with
      | none => rw [hrec] at h; cases h
      | some p =>
        obtain ⟨u2, r2⟩ := p
        rw [hrec] at h
        injection h with h2
        injection h2 with hA hB
        obtain ⟨ha, hn, hd⟩ := ih hrec
        subst hB
        rw [← hA]
        refine ⟨by simpa using ha, by simp, ?_⟩
        intro b hb
        rcases List.mem_cons.mp hb with h | h
        · exact Or.inl (h ▸ hc)
        · exact hd b h
    · rw [unitRest, if_neg hc] at h
      by_cases hop : isCigarOp c = true
      · rw [if_pos hop] at h
        injection h with h2
        injection h2 with hA hB
        subst hB
        rw [← hA]
        exact ⟨rfl, by simp, by intro b hb; simp at hb; subst hb; exact Or.inr hop⟩
      · rw [if_neg hop] at h; cases h

theorem unitSplit_spec {l u r : List Nat} (h : unitSplit l = some (u, r)) :
    u ++ r = l ∧ u ≠ [] ∧ (∀ b ∈ u, isDigit b = true ∨ isCigarOp b = true) ∧
      ∃ b bs, l = b :: bs ∧ isDigit b = true := by
  cases l with
  | nil => simp [unitSplit] at h
  | cons b bs =>
    by_cases hb : isDigit b = true
    · rw [unitSplit, if_pos hb] at h
      cases hrec : unitRest bs with
      | none => rw [hrec] at h; cases h
      | some p =>
        obtain ⟨u2, r2⟩ := p
        rw [hrec] at h
        injection h with h2
        injection h2 with hA hB
        obtain ⟨ha, _, hd⟩ := unitRest_spec hrec
        subst hB
        rw [← hA]
        refine ⟨by simpa using ha, by simp, ?_, b, bs, rfl, hb⟩
        intro x hx
        rcases List.mem_cons.mp hx with h | h
        · exact Or.inl (h ▸ hb)
        · exact hd x h
    · rw [unitSplit, if_neg hb] at h; cases h

theorem unitSplit_shrink {l u r : List Nat} (h : unitSplit l = some (u, r)) :
    r.length < l.length := by
  obtain ⟨ha, hn, _⟩ := unitSplit_spec h
  have hlen : u.length + r.length = l.length := by
    have := congrArg List.length ha
    simpa [List.length_append] using this
  have hu : 0 < u.length := List.length_pos.mpr hn
  omega

theorem cigarChainF_append {fuel : Nat} {l m r : List Nat}
    (h : cigarChainF fuel l = (m, r)) : m ++ r = l := by
  induction fuel generalizing l m r with
  | zero =>
    simp only [cigarChainF] at h
    injection h with h1 h2
    subst h1 h2; rfl
  | succ f ih =>
    rw [cigarChainF] at h
    cases hs : unitSplit l with
    | none =>
      rw [hs] at h
      injection h with h1 h2
      subst h1 h2; rfl
    | some p =>
      obtain ⟨u, r2⟩ := p
      rw [hs] at h
      simp only at h
      obtain ⟨hl, _, _⟩ := unitSplit_spec hs
      cases hrec : cigarChainF f r2 with
      | mk m2 r3 =>
        rw [hrec] at h
        injection h with h1 h2
        subst h1 h2
        have := ih hrec
        rw [← hl, ← this, List.append_assoc]

theorem fullCigar_chain {l : List Nat} (h : fullCigar l = true) :
    cigarChainF l.length l = (l, []) := by
  simp only [fullCigar, Bool.and_eq_true, decide_eq_true_eq, List.isEmpty_iff] at h
  obtain ⟨hne, hrest⟩ := h
  cases hc : cigarChainF l.length l with
  | mk m r =>
    have hr : r = [] := by rw [hc] at hrest; exact hrest
    subst hr
    have := cigarChainF_append hc
    simp only [List.append_nil] at this
    rw [this]

theorem fullCigar_head_digit {l : List Nat} (h : fullCigar l = true) :
    ∃ b bs, l = b :: bs ∧ isDigit b = true := by
  simp only [fullCigar, Bool.and_eq_true, decide_eq_true_eq, List.isEmpty_iff] at h
  obtain ⟨hne, hrest⟩ := h
  cases hs : unitSplit l with
  | some p =>
    obtain ⟨u, r⟩ := p
    obtain ⟨_, _, _, b, bs, hl, hb⟩ := unitSplit_spec hs
    exact ⟨b, bs, hl, hb⟩
  | none =>
    exfalso
    cases l with
    | nil => exact hne rfl
    | cons b bs =>
      rw [show (b :: bs).length = bs.length + 1 from rfl, cigarChainF, hs] at hrest
      exact (List.cons_ne_nil b bs) hrest

theorem overlapFind_valid {l : List Nat} (h : ValidOverlap l) :
    overlapFind l = some l := by
  rcases h with h | h
  · subst h; rfl
  · obtain ⟨b, bs, hl, hb⟩ := fullCigar_head_digit h
    have hch := fullCigar_chain h
    subst hl
    rw [overlapFind, if_neg (digit_ne_star hb)]
    simp only [hch]
    have hne : b :: bs ≠ ([] : List Nat) := List.cons_ne_nil b bs
    rw [if_neg hne]

theorem commaChainF_append {fuel : Nat} {l m r : List Nat}
    (h : commaChainF fuel l = (m, r)) : m ++ r = l := by
  induction fuel generalizing l m r with
  | zero =>
    simp only [commaChainF] at h
    injection h with h1 h2
    subst h1 h2; rfl
  | succ f ih =>
    cases l with
    | nil =>
      simp only [commaChainF] at h
      injection h with h1 h2
      subst h1 h2; rfl
    | cons b bs =>
      rw [commaChainF] at h
      by_cases hb : b = 0x2c
      · rw [if_pos hb] at h
        cases hs : unitSplit bs with
        | none =>
          rw [hs] at h
          injection h with h1 h2
          subst h1 h2; rfl
        | some p =>
          obtain ⟨u, r2⟩ := p
          rw [hs] at h
          simp only at h
          obtain ⟨hl, _, _⟩ := unitSplit_spec hs
          cases hrec : commaChainF f r2 with
          | mk m2 r3 =>
            rw [hrec] at h
            injection h with h1 h2
            subst h1 h2
            have := ih hrec
            simp only [List.cons_append, List.append_assoc, this, hl]
      · rw [if_neg hb] at h
        injection h with h1 h2
        subst h1 h2; rfl

theorem pathOverlapFind_valid {l : List Nat} (h : ValidPathOverlap l) :
    pathOverlapFind l = some l := by
  unfold ValidPathOverlap fullPathOverlap at h
  rcases Bool.or_eq_true_iff.mp h with h | h
  · have : l = [0x2a] := by simpa using h
    subst this; rfl
  · cases hs : unitSplit l with
    | none => rw [hs] at h; cases h
    | some p =>
      obtain ⟨u, r⟩ := p
      rw [hs] at h
      simp only [List.isEmpty_iff] at h
      have hr2 : (commaChainF r.length r).2 = [] := h
      obtain ⟨hl, hu, _, b, bs, hcons, hb⟩ := unitSplit_spec hs
      subst hcons
      rw [pathOverlapFind]
      have hAt : pathOvAt (b :: bs) = some (b :: bs) := by
        rw [pathOvAt]
        simp only [if_neg (digit_ne_star hb), hs]
        cases hch : commaChainF r.length r with
        | mk cm cr =>
          have hcr : cr = [] := by rw [hch] at hr2; exact hr2
          subst hcr
          have hcm : cm = r := by
            have := commaChainF_append hch
            simpa using this
          subst hcm
          simp [hl]
      rw [hAt]

/-! ## Tokenization lemmas -/

theorem splitTab_tabfree {x : List Nat} (hx : ∀ b ∈ x, b ≠ 0x09) :
    splitTab x = [x] := by
  induction x with
  | nil => rfl
  | cons b bs ih =>
    have hb : b ≠ 0x09 := hx b (List.mem_cons_self ..)
    have hrec := ih (fun c hc => hx c (List.mem_cons_of_mem b hc))
    rw [splitTab, if_neg hb, hrec]

theorem splitTab_append {x rest : List Nat} (hx : ∀ b ∈ x, b ≠ 0x09) :
    splitTab (x ++ 0x09 :: rest) = x :: splitTab rest := by
  induction x with
  | nil => simp [splitTab]
  | cons b bs ih =>
    have hb : b ≠ 0x09 := hx b (List.mem_cons_self ..)
    have hrec := ih (fun c hc => hx c (List.mem_cons_of_mem b hc))
    rw [List.cons_append, splitTab, if_neg hb, hrec]

theorem dropWhile_cons_neg {p : Nat → Bool} {a : Nat} {l : List Nat}
    (h : p a = false) : (a :: l).dropWhile p = a :: l := by
  rw [List.dropWhile_cons, h]
  simp

theorem trimNats_eq_self {l : List Nat} {a b : Nat}
    (hh : l.head? = some a) (ha : isWs a = false)
    (hl : l.getLast? = some b) (hb : isWs b = false) :
    trimNats l = l := by
  cases l with
  | nil => cases hh
  | cons c cs =>
    have hc : c = a := by simpa using hh
    subst hc
    unfold trimNats
    rw [dropWhile_cons_neg ha]
    obtain ⟨ys, hys⟩ := List.getLast?_eq_some_iff.mp hl
    have hrev : (c :: cs).reverse = b :: ys.reverse := by rw [hys]; simp
    rw [hrev, dropWhile_cons_neg hb, List.reverse_cons, List.reverse_reverse, ← hys]

theorem trimNats_strip_tab {l : List Nat} {a b : Nat}
    (hh : l.head? = some a) (ha : isWs a = false)
    (hl : l.getLast? = some b) (hb : isWs b = false) :
    trimNats (l ++ [0x09]) = l := by
  cases l with
  | nil => cases hh
  | cons c cs =>
    have hc : c = a := by simpa using hh
    subst hc
    unfold trimNats
    rw [List.cons_append, dropWhile_cons_neg ha, ← List.cons_append]
    obtain ⟨ys, hys⟩ := List.getLast?_eq_some_iff.mp hl
    have hrev : ((c :: cs) ++ [0x09]).reverse = 0x09 :: b :: ys.reverse := by
      rw [hys]; simp
    rw [hrev, List.dropWhile_cons]
    have h9 : isWs 0x09 = true := rfl
    rw [if_pos h9, dropWhile_cons_neg hb, List.reverse_cons, List.reverse_reverse, ← hys]

/-! ## Decimal round-trip -/

theorem natDigitsAux_eq {fuel n : Nat} (h : n ≤ fuel) :
    natDigitsAux fuel n = Nat.digits 10 n := by
  induction fuel generalizing n with
  | zero =>
    have h0 : n = 0 := by omega
    subst h0
    simp [natDigitsAux]
  | succ f ih =>
    by_cases hn : n = 0
    · subst hn; simp [natDigitsAux]
    · rw [natDigitsAux, if_neg hn]
      rw [Nat.digits_def' (by norm_num : (1 : ℕ) < 10) (Nat.pos_of_ne_zero hn)]
      rw [ih (by
        have := Nat.div_lt_self (Nat.pos_of_ne_zero hn) (by norm_num : 1 < 10)
        omega)]

theorem natDecNats_eq (n : Nat) :
    natDecNats n = if n = 0 then [0x30]
      else ((Nat.digits 10 n).reverse.map (fun d => d + 0x30)) := by
  unfold natDecNats
  by_cases hn : n = 0
  · simp [hn]
  · rw [if_neg hn, if_neg hn, natDigitsAux_eq (le_refl n)]

theorem natDecNats_digits {n : Nat} : ∀ b ∈ natDecNats n, isDigit b = true := by
  intro b hb
  rw [natDecNats_eq] at hb
  by_cases hn : n = 0
  · rw [if_pos hn] at hb
    simp at hb
    subst hb; rfl
  · rw [if_neg hn] at hb
    simp only [List.mem_map, List.mem_reverse] at hb
    obtain ⟨d, hd, hdb⟩ := hb
    have : d < 10 := Nat.digits_lt_base (by norm_num) hd
    subst hdb
    simp only [isDigit, Bool.and_eq_true, decide_eq_true_eq]
    omega

theorem natDecNats_ne_nil {n : Nat} : natDecNats n ≠ [] := by
  rw [natDecNats_eq]
  by_cases hn : n = 0
  · rw [if_pos hn]; simp
  · rw [if_neg hn]
    simp [Nat.digits_ne_nil_iff_ne_zero.mpr hn]

theorem decValue?_natDecNats {n : Nat} (h : n ≤ USIZE_MAX) :
    decValue? (natDecNats n) = some n := by
  have hval : Nat.ofDigits 10 (((natDecNats n).map (fun b => b - 0x30)).reverse) = (n : ℕ) := by
    rw [natDecNats_eq]
    by_cases hn : n = 0
    · rw [if_pos hn]; subst hn; simp
    · rw [if_neg hn]
      rw [List.map_map]
      have hcomp : ((fun b => b - 0x30) ∘ fun d => d + 0x30) = (id : Nat → Nat) := by
        funext d; simp
      rw [hcomp, List.map_id, List.reverse_reverse, Nat.ofDigits_digits]
  unfold decValue?
  rw [if_pos ⟨natDecNats_ne_nil, List.all_eq_true.mpr natDecNats_digits⟩]
  rw [hval, if_pos h]

/-! ## Field-byte facts for serialized records -/

theorem validSeq_printable {l : List Nat} (h : ValidSeq l) :
    l ≠ [] ∧ ∀ b ∈ l, isPrintable b = true := by
  rcases h with h | ⟨hne, hall⟩
  · subst h
    exact ⟨by simp, by intro b hb; simp at hb; subst hb; rfl⟩
  · exact ⟨hne, fun b hb => seqChar_printable (hall b hb)⟩

theorem cigarChainF_classes {fuel : Nat} {l m r : List Nat}
    (h : cigarChainF fuel l = (m, r)) :
    ∀ b ∈ m, isDigit b = true ∨ isCigarOp b = true := by
  induction fuel generalizing l m r with
  | zero =>
    simp only [cigarChainF] at h
    injection h with h1 h2
    subst h1; intro b hb; cases hb
  | succ f ih =>
    rw [cigarChainF] at h
    cases hs : unitSplit l with
    | none =>
      rw [hs] at h
      injection h with h1 h2
      subst h1; intro b hb; cases hb
    | some p =>
      obtain ⟨u, r2⟩ := p
      rw [hs] at h
      simp only at h
      obtain ⟨_, _, hcls, _⟩ := unitSplit_spec hs
      cases hrec : cigarChainF f r2 with
      | mk m2 r3 =>
        rw [hrec] at h
        injection h with h1 h2
        subst h1
        intro b hb
        rcases List.mem_append.mp hb with hb | hb
        · exact hcls b hb
        · exact ih hrec b hb

theorem validOverlap_printable {l : List Nat} (h : ValidOverlap l) :
    l ≠ [] ∧ ∀ b ∈ l, isPrintable b = true := by
  rcases h with h | h
  · subst h
    exact ⟨by simp, by intro b hb; simp at hb; subst hb; rfl⟩
  · have hch := fullCigar_chain h
    have hne : l ≠ [] := by
      simp only [fullCigar, Bool.and_eq_true, decide_eq_true_eq] at h
      exact h.1
    refine ⟨hne, fun b hb => ?_⟩
    rcases cigarChainF_classes hch b hb with hd | hop
    · exact digit_printable hd
    · exact cigarOp_printable hop

theorem commaChainF_classes {fuel : Nat} {l m r : List Nat}
    (h : commaChainF fuel l = (m, r)) :
    ∀ b ∈ m, b = 0x2c ∨ isDigit b = true ∨ isCigarOp b = true := by
  induction fuel generalizing l m r with
  | zero =>
    simp only [commaChainF] at h
    injection h with h1 h2
    subst h1; intro b hb; cases hb
  | succ f ih =>
    cases l with
    | nil =>
      simp only [commaChainF] at h
      injection h with h1 h2
      subst h1; intro b hb; cases hb
    | cons c cs =>
      rw [commaChainF] at h
      by_cases hc : c = 0x2c
      · rw [if_pos hc] at h
        cases hs : unitSplit cs with
        | none =>
          rw [hs] at h
          injection h with h1 h2
          subst h1; intro b hb; cases hb
        | some p =>
          obtain ⟨u, r2⟩ := p
          rw [hs] at h
          simp only at h
          obtain ⟨_, _, hcls, _⟩ := unitSplit_spec hs
          cases hrec : commaChainF f r2 with
          | mk m2 r3 =>
            rw [hrec] at h
            injection h with h1 h2
            subst h1
            intro b hb
            rcases List.mem_cons.mp hb with hb | hb
            · exact Or.inl (hb.trans hc)
            · rcases List.mem_append.mp hb with hb | hb
              · exact Or.inr (hcls b hb)
              · exact ih hrec b hb
      · rw [if_neg hc] at h
        injection h with h1 h2
        subst h1; intro b hb; cases hb

theorem validPathOverlap_printable {l : List Nat} (h : ValidPathOverlap l) :
    l ≠ [] ∧ ∀ b ∈ l, isPrintable b = true := by
  unfold ValidPathOverlap fullPathOverlap at h
  rcases Bool.or_eq_true_iff.mp h with h | h
  · have : l = [0x2a] := by simpa using h
    subst this
    exact ⟨by simp, by intro b hb; simp at hb; subst hb; rfl⟩
  · cases hs : unitSplit l with
    | none => rw [hs] at h; cases h
    | some p =>
      obtain ⟨u, r⟩ := p
      rw [hs] at h
      simp only [List.isEmpty_iff] at h
      obtain ⟨hl, hu, hcls, _⟩ := unitSplit_spec hs
      refine ⟨by rw [← hl]; simp [hu], fun b hb => ?_⟩
      rw [← hl] at hb
      rcases List.mem_append.mp hb with hb | hb
      · rcases hcls b hb with hd | hop
        · exact digit_printable hd
        · exact cigarOp_printable hop
      · cases hch : commaChainF r.length r with
        | mk cm cr =>
          have hcr : cr = [] := by rw [hch] at h; exact h
          subst hcr
          have hcm : cm = r := by
            have := commaChainF_append hch
            simpa using this
          subst hcm
          rcases commaChainF_classes hch b hb with hc | hd | hop
          · subst hc; rfl
          · exact digit_printable hd
          · exact cigarOp_printable hop

theorem orient_printable (o : Orientation) :
    o.toNats ≠ [] ∧ ∀ b ∈ o.toNats, isPrintable b = true := by
  cases o <;> exact ⟨by simp [Orientation.toNats], by
    intro b hb; simp [Orientation.toNats] at hb; subst hb; rfl⟩

theorem from_bytes_toNats (o : Orientation) :
    Orientation.from_bytes_plus_minus o.toNats = some o := by
  cases o <;> rfl

/-! ## Tokens of a serialized line -/

theorem splitTab_fields {fs : List (List Nat)} {tail : List Nat}
    (hfs : ∀ f ∈ fs, ∀ b ∈ f, b ≠ 0x09) (htail : ∀ b ∈ tail, b ≠ 0x09) :
    splitTab (fs.foldr (fun f acc => f ++ 0x09 :: acc) tail) = fs ++ [tail] := by
  induction fs with
  | nil => simpa using splitTab_tabfree htail
  | cons f fs ih =>
    rw [List.foldr_cons, splitTab_append (hfs f (List.mem_cons_self ..)),
      ih (fun g hg => hfs g (List.mem_cons_of_mem f hg))]
    rfl

theorem foldr_getLast? {fs : List (List Nat)} {tail : List Nat} {b2 : Nat}
    (h : tail.getLast? = some b2) :
    (fs.foldr (fun f acc => f ++ 0x09 :: acc) tail).getLast? = some b2 := by
  induction fs with
  | nil => exact h
  | cons f fs ih =>
    rw [List.foldr_cons, List.getLast?_append]
    rw [show (0x09 :: fs.foldr (fun f acc => f ++ 0x09 :: acc) tail) =
      [0x09] ++ fs.foldr (fun f acc => f ++ 0x09 :: acc) tail from rfl]
    rw [List.getLast?_append, ih]
    rfl

/-- Tokens of one serialized line `k TAB f₁ TAB … TAB fₙ TAB`: the
leading record-kind byte, then the fields, each all-printable and
nonempty. -/
theorem tokens_of_ser {k : Nat} {fs : List (List Nat)} {tail : List Nat}
    (hk : isPrintable k = true)
    (hfs : ∀ f ∈ fs, ∀ b ∈ f, isPrintable b = true)
    (htail : ∀ b ∈ tail, isPrintable b = true) (htne : tail ≠ []) :
    splitTab (trimNats ((([k] :: fs).foldr (fun f acc => f ++ 0x09 :: acc) tail) ++ [0x09])) =
      ([k] :: fs) ++ [tail] := by
  have hhead : (([k] :: fs).foldr (fun f acc => f ++ 0x09 :: acc) tail).head? = some k := rfl
  have hb2 : tail.getLast? = some (tail.getLast htne) :=
    List.getLast?_eq_getLast tail htne
  have hb2p : isPrintable (tail.getLast htne) = true :=
    htail _ (List.getLast_mem htne)
  have hlast : (([k] :: fs).foldr (fun f acc => f ++ 0x09 :: acc) tail).getLast? =
      some (tail.getLast htne) := foldr_getLast? hb2
  rw [trimNats_strip_tab hhead (printable_not_ws hk) hlast (printable_not_ws hb2p)]
  exact splitTab_fields
    (by
      intro f hf b hb
      rcases List.mem_cons.mp hf with hf | hf
      · subst hf; simp at hb; subst hb; exact printable_ne_tab hk
      · exact printable_ne_tab (hfs f hf b hb))
    (fun b hb => printable_ne_tab (htail b hb))

/-! ## Parsing a serialized record recovers the record -/

theorem parse_orientation_toNats (o : Orientation) (rest : List (List Nat)) :
    parse_orientation (o.toNats :: rest) = .ok (o, rest) := by
  cases o <;> rfl

theorem parse_usize_tok_dec {n : Nat} (h : n ≤ USIZE_MAX) :
    parse_usize_tok (natDecNats n) = .ok n := by
  obtain ⟨b, rest, hcons⟩ := List.exists_cons_of_ne_nil (@natDecNats_ne_nil n)
  have hb : isDigit b = true := natDecNats_digits b (by rw [hcons]; exact List.mem_cons_self ..)
  have hb2b : b ≠ 0x2b := by
    simp only [isDigit, Bool.and_eq_true, decide_eq_true_eq] at hb
    omega
  have hd := decValue?_natDecNats h
  rw [hcons] at hd
  have hany : ((b :: rest).any (fun x => decide (0x80 ≤ x))) = false := by
    rw [List.any_eq_false]
    intro x hx
    have hxd := natDecNats_digits x (by rw [hcons]; exact hx)
    simp only [isDigit, Bool.and_eq_true, decide_eq_true_eq] at hxd
    simp only [decide_eq_true_eq]
    omega
  unfold parse_usize_tok
  rw [hcons]
  simp only [hany, Bool.false_eq_true, if_false, if_neg hb2b, hd]

theorem segment_parse_line_tokens {name seq : List Nat} (hne : name ≠ [])
    (hall : ∀ b ∈ name, isPrintable b = true) (hs : ValidSeq seq) :
    Segment.parse_line [name, seq] = .ok ⟨name, seq⟩ := by
  simp [Segment.parse_line, parse_next_id, next_field, parse_sequence,
    BStrId.parse_id, findRun_all hne hall, seqFind_valid hs, Bind.bind, Except.bind]

theorem link_parse_line_tokens {f t ov : List Nat} {fo to2 : Orientation}
    (hf : ValidId f) (ht : ValidId t) (hov : ValidOverlap ov) :
    Link.parse_line [f, fo.toNats, t, to2.toNats, ov] = .ok ⟨f, fo, t, to2, ov⟩ := by
  simp [Link.parse_line, parse_next_id, next_field, parse_orientation,
    BStrId.parse_id, findRun_all hf.1 hf.2, findRun_all ht.1 ht.2,
    from_bytes_toNats, parse_overlap, overlapFind_valid hov, Bind.bind, Except.bind]

theorem containment_parse_line_tokens {cn dn ov : List Nat} {co do2 : Orientation}
    {pos : Nat} (hc : ValidId cn) (hd : ValidId dn) (hp : pos ≤ USIZE_MAX)
    (hov : ValidOverlap ov) :
    Containment.parse_line [cn, co.toNats, dn, do2.toNats, natDecNats pos, ov] =
      .ok ⟨cn, co, dn, do2, pos, ov⟩ := by
  simp [Containment.parse_line, parse_next_id, next_field, parse_orientation,
    BStrId.parse_id, findRun_all hc.1 hc.2, findRun_all hd.1 hd.2,
    from_bytes_toNats, parse_overlap, overlapFind_valid hov,
    parse_usize_tok_dec hp, Bind.bind, Except.bind]

theorem path_parse_line_tokens {nm sn ov : List Nat}
    (hn : ValidId nm) (hs : ValidId sn) (hov : ValidPathOverlap ov) :
    Path.parse_line [nm, sn, ov] = .ok ⟨nm, sn, ov⟩ := by
  simp [Path.parse_line, parse_next_id, next_field, parse_segment_names,
    parse_path_overlap, BStrId.parse_id, findRun_all hn.1 hn.2, findRun_all hs.1 hs.2,
    pathOverlapFind_valid hov, Bind.bind, Except.bind]

theorem serSegment_shape (s : Segment) :
    serSegment s =
      ([[0x53], s.name].foldr (fun f acc => f ++ 0x09 :: acc) s.sequence) ++ [0x09] := by
  simp [serSegment]

theorem serLink_shape (l : Link) :
    serLink l =
      ([[0x4c], l.from_segment, l.from_orient.toNats, l.to_segment,
        l.to_orient.toNats].foldr (fun f acc => f ++ 0x09 :: acc) l.overlap) ++ [0x09] := by
  simp [serLink]

theorem serContainment_shape (c : Containment) :
    serContainment c =
      ([[0x43], c.container_name, c.container_orient.toNats, c.contained_name,
        c.contained_orient.toNats, natDecNats c.pos].foldr
          (fun f acc => f ++ 0x09 :: acc) c.overlap) ++ [0x09] := by
  simp [serContainment]

theorem serPath_shape (p : Path) :
    serPath p =
      ([[0x50], p.path_name, p.segment_names].foldr
        (fun f acc => f ++ 0x09 :: acc) p.overlaps) ++ [0x09] := by
  simp [serPath]

theorem parse_ser_segment {s : Segment} (hn : ValidId s.name) (hs : ValidSeq s.sequence) :
    parse_gfa_line ParserCfg.all (serSegment s) = .ok (.segment s) := by
  obtain ⟨hne, hall⟩ := hn
  obtain ⟨hsne, hsall⟩ := validSeq_printable hs
  have htoks : splitTab (trimNats (serSegment s)) = [[0x53], s.name, s.sequence] := by
    rw [serSegment_shape]
    refine tokens_of_ser (by rfl) ?_ hsall hsne
    intro f hf b hb
    simp only [List.mem_cons, List.not_mem_nil, or_false] at hf
    subst hf
    exact hall b hb
  unfold parse_gfa_line
  rw [htoks]
  simp [dispatch, segment_parse_line_tokens hne hall hs, ParserCfg.all]

theorem parse_ser_link {l : Link} (hf : ValidId l.from_segment)
    (ht : ValidId l.to_segment) (hov : ValidOverlap l.overlap) :
    parse_gfa_line ParserCfg.all (serLink l) = .ok (.link l) := by
  obtain ⟨hovne, hovall⟩ := validOverlap_printable hov
  have htoks : splitTab (trimNats (serLink l)) =
      [[0x4c], l.from_segment, l.from_orient.toNats, l.to_segment,
        l.to_orient.toNats, l.overlap] := by
    rw [serLink_shape]
    refine tokens_of_ser (by rfl) ?_ hovall hovne
    intro f hfm b hb
    simp only [List.mem_cons, List.not_mem_nil, or_false] at hfm
    rcases hfm with h | h | h | h
    · exact hf.2 b (h ▸ hb)
    · exact (orient_printable l.from_orient).2 b (h ▸ hb)
    · exact ht.2 b (h ▸ hb)
    · exact (orient_printable l.to_orient).2 b (h ▸ hb)
  unfold parse_gfa_line
  rw [htoks]
  simp [dispatch, link_parse_line_tokens hf ht hov, ParserCfg.all]

theorem parse_ser_containment {c : Containment} (hc : ValidId c.container_name)
    (hd : ValidId c.contained_name) (hp : c.pos ≤ USIZE_MAX)
    (hov : ValidOverlap c.overlap) :
    parse_gfa_line ParserCfg.all (serContainment c) = .ok (.containment c) := by
  obtain ⟨hovne, hovall⟩ := validOverlap_printable hov
  have htoks : splitTab (trimNats (serContainment c)) =
      [[0x43], c.container_name, c.container_orient.toNats, c.contained_name,
        c.contained_orient.toNats, natDecNats c.pos, c.overlap] := by
    rw [serContainment_shape]
    refine tokens_of_ser (by rfl) ?_ hovall hovne
    intro f hfm b hb
    simp only [List.mem_cons, List.not_mem_nil, or_false] at hfm
    rcases hfm with h | h | h | h | h
    · exact hc.2 b (h ▸ hb)
    · exact (orient_printable c.container_orient).2 b (h ▸ hb)
    · exact hd.2 b (h ▸ hb)
    · exact (orient_printable c.contained_orient).2 b (h ▸ hb)
    · exact digit_printable (natDecNats_digits b (h ▸ hb))
  unfold parse_gfa_line
  rw [htoks]
  simp [dispatch, containment_parse_line_tokens hc hd hp hov, ParserCfg.all]

theorem parse_ser_path {p : Path} (hn : ValidId p.path_name)
    (hs : ValidId p.segment_names) (hov : ValidPathOverlap p.overlaps) :
    parse_gfa_line ParserCfg.all (serPath p) = .ok (.path p) := by
  obtain ⟨hovne, hovall⟩ := validPathOverlap_printable hov
  have htoks : splitTab (trimNats (serPath p)) =
      [[0x50], p.path_name, p.segment_names, p.overlaps] := by
    rw [serPath_shape]
    refine tokens_of_ser (by rfl) ?_ hovall hovne
    intro f hfm b hb
    simp only [List.mem_cons, List.not_mem_nil, or_false] at hfm
    rcases hfm with h | h
    · exact hn.2 b (h ▸ hb)
    · exact hs.2 b (h ▸ hb)
  unfold parse_gfa_line
  rw [htoks]
  simp [dispatch, path_parse_line_tokens hn hs hov, ParserCfg.all]

/-! ## Tokens of an unterminated line (no trailing tab) -/

theorem tokens_of_line {k : Nat} {fs : List (List Nat)} {tail : List Nat}
    (hk : isPrintable k = true)
    (hfs : ∀ f ∈ fs, ∀ b ∈ f, isPrintable b = true)
    (htail : ∀ b ∈ tail, isPrintable b = true) (htne : tail ≠ []) :
    splitTab (trimNats (([k] :: fs).foldr (fun f acc => f ++ 0x09 :: acc) tail)) =
      ([k] :: fs) ++ [tail] := by
  have hhead : (([k] :: fs).foldr (fun f acc => f ++ 0x09 :: acc) tail).head? = some k := rfl
  have hb2 : tail.getLast? = some (tail.getLast htne) :=
    List.getLast?_eq_getLast tail htne
  have hb2p : isPrintable (tail.getLast htne) = true :=
    htail _ (List.getLast_mem htne)
  have hlast : (([k] :: fs).foldr (fun f acc => f ++ 0x09 :: acc) tail).getLast? =
      some (tail.getLast htne) := foldr_getLast? hb2
  rw [trimNats_eq_self hhead (printable_not_ws hk) hlast (printable_not_ws hb2p)]
  exact splitTab_fields
    (by
      intro f hf b hb
      rcases List.mem_cons.mp hf with hf | hf
      · subst hf; simp at hb; subst hb; exact printable_ne_tab hk
      · exact printable_ne_tab (hfs f hf b hb))
    (fun b hb => printable_ne_tab (htail b hb))

/-! ## Failure characterizations of the searches -/

theorem findRun_none {p : Nat → Bool} {l : List Nat} :
    findRun p l = none ↔ ∀ b ∈ l, p b = false := by
  induction l with
  | nil => simp [findRun]
  | cons b bs ih =>
    by_cases hb : p b = true
    · simp [findRun, hb]
    · have hb2 : p b = false := by
        cases h : p b
        · rfl
        · exact absurd h hb
      rw [findRun, if_neg hb]
      simp only [List.mem_cons]
      constructor
      · intro h x hx
        rcases hx with hx | hx
        · subst hx; exact hb2
        · exact ih.mp h x hx
      · intro h
        exact ih.mpr (fun x hx => h x (Or.inr hx))

theorem seqFind_none {l : List Nat}
    (h : ∀ b ∈ l, b ≠ 0x2a ∧ isSeqChar b = false) : seqFind l = none := by
  induction l with
  | nil => rfl
  | cons b bs ih =>
    obtain ⟨h1, h2⟩ := h b (List.mem_cons_self ..)
    rw [seqFind, if_neg h1, if_neg (by rw [h2]; simp)]
    exact ih (fun x hx => h x (List.mem_cons_of_mem b hx))

theorem overlapFind_none {l : List Nat}
    (h : ∀ b ∈ l, b ≠ 0x2a ∧ isDigit b = false) : overlapFind l = none := by
  induction l with
  | nil => rfl
  | cons b bs ih =>
    obtain ⟨h1, h2⟩ := h b (List.mem_cons_self ..)
    have hsplit : unitSplit (b :: bs) = none := by
      rw [unitSplit, if_neg (by rw [h2]; simp)]
    rw [overlapFind, if_neg h1]
    have hchain : cigarChainF (b :: bs).length (b :: bs) = ([], b :: bs) := by
      rw [show (b :: bs).length = bs.length + 1 from rfl, cigarChainF, hsplit]
    rw [hchain]
    simp only [if_pos rfl]
    exact ih (fun x hx => h x (List.mem_cons_of_mem b hx))

/-! ## `[!-~]+[+-]` search facts -/

theorem dropWhile_eq_cons_head {p : Nat → Bool} {l : List Nat} {y : Nat} {ys : List Nat}
    (h : l.dropWhile p = y :: ys) : p y = false := by
  induction l with
  | nil => cases h
  | cons b bs ih =>
    rw [List.dropWhile_cons] at h
    by_cases hb : p b = true
    · rw [if_pos hb] at h
      exact ih h
    · rw [if_neg hb] at h
      injection h with h1 _
      subst h1
      cases hpb : p b
      · rfl
      · exact absurd hpb hb

theorem refCore_last_orient {rrev m : List Nat} (h : refCore rrev = some m) :
    m ≠ [] ∧ ∃ o, isOrient o = true ∧ m.getLast? = some o := by
  unfold refCore at h
  split at h
  · cases h
  · next o rest hdw =>
    split at h
    · cases h
    · next hr =>
      injection h with h1
      subst h1
      have ho : isOrient o = true := by
        have := dropWhile_eq_cons_head hdw
        simpa using this
      refine ⟨by simp, o, ho, ?_⟩
      rw [List.getLast?_reverse]
      rfl

theorem refMatchAt_last_orient {l m : List Nat} (h : refMatchAt l = some m) :
    m ≠ [] ∧ ∃ o, isOrient o = true ∧ m.getLast? = some o :=
  refCore_last_orient h

theorem refFind_last_orient {l m : List Nat} (h : refFind l = some m) :
    m ≠ [] ∧ ∃ o, isOrient o = true ∧ m.getLast? = some o := by
  induction l with
  | nil => cases h
  | cons b bs ih =>
    rw [refFind] at h
    cases hm : refMatchAt (b :: bs) with
    | some m2 =>
      rw [hm] at h
      injection h with h1
      subst h1
      exact refMatchAt_last_orient hm
    | none =>
      rw [hm] at h
      exact ih h

theorem orient_is_printable {o : Nat} (h : isOrient o = true) : isPrintable o = true := by
  simp only [isOrient, Bool.or_eq_true, decide_eq_true_eq] at h
  simp only [isPrintable, Bool.and_eq_true, decide_eq_true_eq]
  omega

theorem refFind_body_orient {body : List Nat} {o : Nat} (hne : body ≠ [])
    (hall : ∀ b ∈ body, isPrintable b = true) (ho : isOrient o = true) :
    refFind (body ++ [o]) = some (body ++ [o]) := by
  cases body with
  | nil => exact absurd rfl hne
  | cons b bs =>
    have hallp : ∀ x ∈ (b :: bs) ++ [o], isPrintable x = true := by
      intro x hx
      rcases List.mem_append.mp hx with hx | hx
      · exact hall x hx
      · simp at hx; subst hx; exact orient_is_printable ho
    have hdw : (o :: (b :: bs).reverse).dropWhile (fun x => !(isOrient x)) =
        o :: (b :: bs).reverse := by
      rw [List.dropWhile_cons, ho]
      simp
    have hcore : refCore ((b :: bs) ++ [o]).reverse = some ((b :: bs) ++ [o]) := by
      have hrev : ((b :: bs) ++ [o]).reverse = o :: (b :: bs).reverse := by simp
      unfold refCore
      rw [hrev, hdw]
      show (if (b :: bs).reverse = [] then none
        else some ((o :: (b :: bs).reverse).reverse)) = some ((b :: bs) ++ [o])
      rw [if_neg (by simp)]
      simp
    have hmatch : refMatchAt ((b :: bs) ++ [o]) = some ((b :: bs) ++ [o]) := by
      unfold refMatchAt
      rw [List.takeWhile_eq_self_iff.mpr hallp]
      exact hcore
    rw [show (b :: bs) ++ [o] = b :: (bs ++ [o]) from rfl] at hmatch ⊢
    rw [refFind, hmatch]

/-! ## `parse_lines` behavior -/

/-- Insert the successfully parsed records of the given lines, skipping
every failing line. -/
def insertParsed (cfg : ParserCfg) (g : GFA) (ls : List (List Nat)) : GFA :=
  ls.foldl (fun g2 l =>
    match parse_gfa_line cfg l with
    | .ok r => g2.insert_line r
    | .error _ => g2) g

theorem insertParsed_cons_ok {cfg : ParserCfg} {g : GFA} {l : List Nat}
    {ls : List (List Nat)} {r : GLine} (hp : parse_gfa_line cfg l = .ok r) :
    insertParsed cfg g (l :: ls) = insertParsed cfg (g.insert_line r) ls := by
  unfold insertParsed
  rw [List.foldl_cons, hp]

theorem insertParsed_cons_err {cfg : ParserCfg} {g : GFA} {l : List Nat}
    {ls : List (List Nat)} {e : ParseError} (hp : parse_gfa_line cfg l = .error e) :
    insertParsed cfg g (l :: ls) = insertParsed cfg g ls := by
  unfold insertParsed
  rw [List.foldl_cons, hp]

theorem parse_lines_go_ignore_all {cfg : ParserCfg} {g : GFA} {ls : List (List Nat)} :
    parse_lines_go cfg .IgnoreAll g ls = .ok (insertParsed cfg g ls) := by
  induction ls generalizing g with
  | nil => rfl
  | cons l ls ih =>
    cases hp : parse_gfa_line cfg l with
    | ok r =>
      rw [parse_lines_go, hp]
      show parse_lines_go cfg .IgnoreAll (g.insert_line r) ls = _
      rw [ih, insertParsed_cons_ok hp]
    | error e =>
      rw [parse_lines_go, hp]
      show (if ParseError.can_safely_continue e .IgnoreAll = true then
        parse_lines_go cfg .IgnoreAll g ls else Except.error e) = _
      rw [if_pos (show ParseError.can_safely_continue e ParserTolerance.IgnoreAll = true
        from rfl)]
      rw [ih, insertParsed_cons_err hp]

theorem parse_lines_go_pre {cfg : ParserCfg} {tol : ParserTolerance} {g : GFA}
    {pre rest : List (List Nat)}
    (h : ∀ l ∈ pre, ∃ r, parse_gfa_line cfg l = .ok r) :
    parse_lines_go cfg tol g (pre ++ rest) =
      parse_lines_go cfg tol (insertParsed cfg g pre) rest := by
  induction pre generalizing g with
  | nil => rfl
  | cons l pre ih =>
    obtain ⟨r, hr⟩ := h l (List.mem_cons_self ..)
    rw [List.cons_append, parse_lines_go, hr]
    show parse_lines_go cfg tol (g.insert_line r) (pre ++ rest) = _
    rw [ih (fun x hx => h x (List.mem_cons_of_mem l hx)), insertParsed_cons_ok hr]

theorem parse_lines_go_all_ok {cfg : ParserCfg} {tol : ParserTolerance} {g : GFA}
    {ls : List (List Nat)} (h : ∀ l ∈ ls, ∃ r, parse_gfa_line cfg l = .ok r) :
    parse_lines_go cfg tol g ls = .ok (insertParsed cfg g ls) := by
  have := @parse_lines_go_pre cfg tol g ls [] h
  simpa using this

theorem insertParsed_append {cfg : ParserCfg} {g : GFA} {xs ys : List (List Nat)} :
    insertParsed cfg g (xs ++ ys) = insertParsed cfg (insertParsed cfg g xs) ys := by
  unfold insertParsed
  rw [List.foldl_append]

theorem insertParsed_skip {cfg : ParserCfg} {g : GFA} {bad : List Nat}
    {ys : List (List Nat)} {e : ParseError} (hbad : parse_gfa_line cfg bad = .error e) :
    insertParsed cfg g (bad :: ys) = insertParsed cfg g ys := by
  unfold insertParsed
  rw [List.foldl_cons, hbad]

theorem safe_recoverable (e : ParseError) :
    e.can_safely_continue .Safe = true ↔ (e = .UnknownLineType ∨ e = .EmptyLine) := by
  cases e <;> simp [ParseError.can_safely_continue]

/-! ## Iterator facts -/

theorem segment_id_ref_panics {elem : List Nat} :
    segment_id_ref elem = .panicked ↔
      (elem = [] ∨ ∀ o, elem.getLast? = some o → isOrient o = false) := by
  cases hg : elem.getLast? with
  | none =>
    simp only [List.getLast?_eq_none_iff] at hg
    subst hg
    simp [segment_id_ref]
  | some b =>
    have hne : elem ≠ [] := by
      intro h; subst h; cases hg
    have hred : segment_id_ref elem =
        (if b = 0x2b then .ok (elem.dropLast, .Forward)
         else if b = 0x2d then .ok (elem.dropLast, .Backward) else .panicked) := by
      unfold segment_id_ref
      rw [hg]
    rw [hred]
    by_cases hb : b = 0x2b
    · subst hb
      rw [if_pos rfl]
      constructor
      · intro h; cases h
      · intro h
        rcases h with h | h
        · exact absurd h hne
        · have := h 0x2b rfl
          simp [isOrient] at this
    · rw [if_neg hb]
      by_cases hb2 : b = 0x2d
      · subst hb2
        rw [if_pos rfl]
        constructor
        · intro h; cases h
        · intro h
          rcases h with h | h
          · exact absurd h hne
          · have := h 0x2d rfl
            simp [isOrient] at this
      · rw [if_neg hb2]
        constructor
        · intro _
          refine Or.inr (fun o ho => ?_)
          injection ho with ho
          subst ho
          simp only [isOrient, Bool.or_eq_false_iff, decide_eq_false_iff_not]
          exact ⟨hb, hb2⟩
        · intro _; rfl

theorem segment_id_ref_ok {body : List Nat} {o : Nat} (ho : isOrient o = true) :
    segment_id_ref (body ++ [o]) =
      .ok (body, if o = 0x2b then .Forward else .Backward) := by
  have hred : segment_id_ref (body ++ [o]) =
      (if o = 0x2b then .ok ((body ++ [o]).dropLast, .Forward)
       else if o = 0x2d then .ok ((body ++ [o]).dropLast, .Backward) else .panicked) := by
    unfold segment_id_ref
    rw [List.getLast?_concat]
  rw [hred]
  simp only [isOrient, Bool.or_eq_true, decide_eq_true_eq] at ho
  rcases ho with ho | ho
  · subst ho
    simp [List.dropLast_concat]
  · subst ho
    simp [List.dropLast_concat]

theorem seqPRes_panicked {α : Type} {l : List (PRes α)}
    (h : PRes.panicked ∈ l) : seqPRes l = .panicked := by
  induction l with
  | nil => cases h
  | cons x xs ih =>
    cases x with
    | panicked => rfl
    | ok a =>
      rcases List.mem_cons.mp h with h | h
      · cases h
      · rw [seqPRes, ih h]

theorem seqPRes_ok {α : Type} {l : List (PRes α)}
    (h : ∀ x ∈ l, ∃ a, x = .ok a) : ∃ out, seqPRes l = .ok out := by
  induction l with
  | nil => exact ⟨[], rfl⟩
  | cons x xs ih =>
    obtain ⟨out, hout⟩ := ih (fun y hy => h y (List.mem_cons_of_mem x hy))
    obtain ⟨a, ha⟩ := h x (List.mem_cons_self ..)
    subst ha
    refine ⟨a :: out, ?_⟩
    rw [seqPRes, hout]

theorem parse_gfa_line_cons {cfg : ParserCfg} {bytes hdr : List Nat}
    {rest : List (List Nat)} (hsplit : splitTab (trimNats bytes) = hdr :: rest) :
    parse_gfa_line cfg bytes = dispatch cfg bytes hdr rest := by
  unfold parse_gfa_line
  rw [hsplit]

/-! # The claims -/

/-- C1 (amended): for Segment, Link, Containment and Path records built
from valid field values (at the byte-string identifier strategy and the
discard tag strategy), serializing, re-parsing the serialized line with
`parse_gfa_line`, and serializing the parsed record again reproduces the
first serialization.  The Header kind, which the original claim also
covered, is excluded: see `header_roundtrip_fails`. -/
theorem roundtrip_amended :
    (∀ s : Segment, ValidId s.name → ValidSeq s.sequence →
      (parse_gfa_line ParserCfg.all (serSegment s)).map serGLine =
        .ok (serSegment s)) ∧
    (∀ l : Link, ValidId l.from_segment → ValidId l.to_segment →
      ValidOverlap l.overlap →
      (parse_gfa_line ParserCfg.all (serLink l)).map serGLine = .ok (serLink l)) ∧
    (∀ c : Containment, ValidId c.container_name → ValidId c.contained_name →
      c.pos ≤ USIZE_MAX → ValidOverlap c.overlap →
      (parse_gfa_line ParserCfg.all (serContainment c)).map serGLine =
        .ok (serContainment c)) ∧
    (∀ p : Path, ValidId p.path_name → ValidId p.segment_names →
      ValidPathOverlap p.overlaps →
      (parse_gfa_line ParserCfg.all (serPath p)).map serGLine = .ok (serPath p)) := by
  refine ⟨?_, ?_, ?_, ?_⟩
  · intro s h1 h2
    rw [parse_ser_segment h1 h2]
    rfl
  · intro l h1 h2 h3
    rw [parse_ser_link h1 h2 h3]
    rfl
  · intro c h1 h2 h3 h4
    rw [parse_ser_containment h1 h2 h3 h4]
    rfl
  · intro p h1 h2 h3
    rw [parse_ser_path h1 h2 h3]
    rfl

/-- C1 counterexample: the default Header, version `1.0`, serializes to
`H<TAB>1.0<TAB>`; re-parsing drops the version (the token `1.0` is not a
`Z`-typed tag) and re-serializing gives the bare `H`, so
serialize∘parse∘serialize differs from serialize on this record. -/
theorem header_roundtrip_fails :
    (parse_gfa_line ParserCfg.all
        (serHeader ⟨some [0x31, 0x2e, 0x30]⟩)).map serGLine = .ok [0x48] ∧
      serHeader ⟨some [0x31, 0x2e, 0x30]⟩ ≠ [0x48] := by
  exact ⟨by rfl, by decide⟩

/-- Witness for C1: the amended round-trip law evaluated on the segment
`11/ACCTT`, the link `11+ 12- 4M`, the containment `1- 2+ 110 100M` and
the path `14 11+,12-,13+ 4M,5M`. -/
theorem roundtrip_amended_witness :
    ((parse_gfa_line ParserCfg.all
        (serSegment ⟨[0x31, 0x31], [0x41, 0x43, 0x43, 0x54, 0x54]⟩)).map serGLine =
      .ok (serSegment ⟨[0x31, 0x31], [0x41, 0x43, 0x43, 0x54, 0x54]⟩)) ∧
    ((parse_gfa_line ParserCfg.all
        (serLink ⟨[0x31, 0x31], .Forward, [0x31, 0x32], .Backward, [0x34, 0x4d]⟩)).map
          serGLine =
      .ok (serLink ⟨[0x31, 0x31], .Forward, [0x31, 0x32], .Backward, [0x34, 0x4d]⟩)) ∧
    ((parse_gfa_line ParserCfg.all
        (serContainment ⟨[0x31], .Backward, [0x32], .Forward, 110,
          [0x31, 0x30, 0x30, 0x4d]⟩)).map serGLine =
      .ok (serContainment ⟨[0x31], .Backward, [0x32], .Forward, 110,
        [0x31, 0x30, 0x30, 0x4d]⟩)) ∧
    ((parse_gfa_line ParserCfg.all
        (serPath ⟨[0x31, 0x34],
          [0x31, 0x31, 0x2b, 0x2c, 0x31, 0x32, 0x2d, 0x2c, 0x31, 0x33, 0x2b],
          [0x34, 0x4d, 0x2c, 0x35, 0x4d]⟩)).map serGLine =
      .ok (serPath ⟨[0x31, 0x34],
        [0x31, 0x31, 0x2b, 0x2c, 0x31, 0x32, 0x2d, 0x2c, 0x31, 0x33, 0x2b],
        [0x34, 0x4d, 0x2c, 0x35, 0x4d]⟩)) :=
  ⟨roundtrip_amended.1 _ (by decide) (by decide),
   roundtrip_amended.2.1 _ (by decide) (by decide) (by decide),
   roundtrip_amended.2.2.1 _ (by decide) (by decide) (by decide) (by decide),
   roundtrip_amended.2.2.2 _ (by decide) (by decide) (by decide)⟩

/-- C6 (amended): a line whose first tab-separated token is an
unrecognized record-kind tag raises `UnknownLineType`, as does a
recognized `S`/`L`/`C`/`P` tag whose builder switch is off; the
`headers` switch, however, is never consulted — `H` lines are always
dispatched to the header grammar (see
`headers_disabled_counterexample`). -/
theorem unknown_line_dispatch :
    (∀ (cfg : ParserCfg) (bytes hdr : List Nat) (ts : List (List Nat)),
      splitTab (trimNats bytes) = hdr :: ts →
      hdr ≠ [0x48] → hdr ≠ [0x53] → hdr ≠ [0x4c] → hdr ≠ [0x43] → hdr ≠ [0x50] →
      parse_gfa_line cfg bytes = .error .UnknownLineType) ∧
    (∀ (cfg : ParserCfg) (bytes : List Nat) (ts : List (List Nat)),
      splitTab (trimNats bytes) = [0x53] :: ts → cfg.segments = false →
      parse_gfa_line cfg bytes = .error .UnknownLineType) ∧
    (∀ (cfg : ParserCfg) (bytes : List Nat) (ts : List (List Nat)),
      splitTab (trimNats bytes) = [0x4c] :: ts → cfg.links = false →
      parse_gfa_line cfg bytes = .error .UnknownLineType) ∧
    (∀ (cfg : ParserCfg) (bytes : List Nat) (ts : List (List Nat)),
      splitTab (trimNats bytes) = [0x43] :: ts → cfg.containments = false →
      parse_gfa_line cfg bytes = .error .UnknownLineType) ∧
    (∀ (cfg : ParserCfg) (bytes : List Nat) (ts : List (List Nat)),
      splitTab (trimNats bytes) = [0x50] :: ts → cfg.paths = false →
      parse_gfa_line cfg bytes = .error .UnknownLineType) := by
  refine ⟨?_, ?_, ?_, ?_, ?_⟩
  · intro cfg bytes hdr ts hsplit h1 h2 h3 h4 h5
    rw [parse_gfa_line_cons hsplit]
    unfold dispatch
    rw [if_neg h1, if_neg (fun hc => h2 hc.1), if_neg (fun hc => h3 hc.1),
      if_neg (fun hc => h4 hc.1), if_neg (fun hc => h5 hc.1)]
  · intro cfg bytes ts hsplit hoff
    rw [parse_gfa_line_cons hsplit]
    unfold dispatch
    rw [if_neg (by decide), if_neg (fun hc => Bool.false_ne_true (hoff ▸ hc.2)),
      if_neg (fun hc => by cases hc.1), if_neg (fun hc => by cases hc.1),
      if_neg (fun hc => by cases hc.1)]
  · intro cfg bytes ts hsplit hoff
    rw [parse_gfa_line_cons hsplit]
    unfold dispatch
    rw [if_neg (by decide), if_neg (fun hc => by cases hc.1),
      if_neg (fun hc => Bool.false_ne_true (hoff ▸ hc.2)),
      if_neg (fun hc => by cases hc.1), if_neg (fun hc => by cases hc.1)]
  · intro cfg bytes ts hsplit hoff
    rw [parse_gfa_line_cons hsplit]
    unfold dispatch
    rw [if_neg (by decide), if_neg (fun hc => by cases hc.1),
      if_neg (fun hc => by cases hc.1),
      if_neg (fun hc => Bool.false_ne_true (hoff ▸ hc.2)),
      if_neg (fun hc => by cases hc.1)]
  · intro cfg bytes ts hsplit hoff
    rw [parse_gfa_line_cons hsplit]
    unfold dispatch
    rw [if_neg (by decide), if_neg (fun hc => by cases hc.1),
      if_neg (fun hc => by cases hc.1), if_neg (fun hc => by cases hc.1),
      if_neg (fun hc => Bool.false_ne_true (hoff ▸ hc.2))]

/-- C6 counterexample: with the `headers` switch off (and all others
on), the line `H<TAB>XX` is still dispatched to the header grammar and
parses successfully, instead of raising `UnknownLineType` as the claim
requires for an administratively disabled kind. -/
theorem headers_disabled_counterexample :
    parse_gfa_line ⟨false, true, true, true, true⟩ [0x48, 0x09, 0x58, 0x58] =
      .ok (.header ⟨none⟩) := by
  rfl

/-- Witness for C6: the line `Q<TAB>foo` is rejected as an unknown line
type under every configuration field choice exercised here, and
`S`/`L`/`C`/`P` lines are rejected when their switch is off. -/
theorem unknown_line_dispatch_witness :
    parse_gfa_line ParserCfg.all [0x51, 0x09, 0x66, 0x6f, 0x6f] =
      .error .UnknownLineType ∧
    parse_gfa_line ⟨true, false, true, true, true⟩ [0x53, 0x09, 0x31, 0x09, 0x41] =
      .error .UnknownLineType ∧
    parse_gfa_line ⟨true, true, false, true, true⟩ [0x4c, 0x09, 0x31] =
      .error .UnknownLineType ∧
    parse_gfa_line ⟨true, true, true, false, true⟩ [0x43, 0x09, 0x31] =
      .error .UnknownLineType ∧
    parse_gfa_line ⟨true, true, true, true, false⟩ [0x50, 0x09, 0x31] =
      .error .UnknownLineType :=
  ⟨unknown_line_dispatch.1 ParserCfg.all _ [0x51] [[0x66, 0x6f, 0x6f]] (by rfl)
      (by decide) (by decide) (by decide) (by decide) (by decide),
   unknown_line_dispatch.2.1 _ _ [[0x31], [0x41]] (by rfl) rfl,
   unknown_line_dispatch.2.2.1 _ _ [[0x31]] (by rfl) rfl,
   unknown_line_dispatch.2.2.2.1 _ _ [[0x31]] (by rfl) rfl,
   unknown_line_dispatch.2.2.2.2 _ _ [[0x31]] (by rfl) rfl⟩

/-- C9: parsing the line `P<TAB>14<TAB>11+,12-,13+<TAB>4M,5M` yields the
Path record with name `14`, stored reference list `11+,12-,13+` and
overlaps `4M,5M`; its reference-list iterator yields exactly
(`11`,Forward), (`12`,Backward), (`13`,Forward); `Path.iter` is a pure
function of the stored byte string, so every call re-splits the same
string and yields this same sequence. -/
theorem path_scenario :
    parse_gfa_line ParserCfg.all
        [0x50, 0x09, 0x31, 0x34, 0x09, 0x31, 0x31, 0x2b, 0x2c, 0x31, 0x32, 0x2d,
          0x2c, 0x31, 0x33, 0x2b, 0x09, 0x34, 0x4d, 0x2c, 0x35, 0x4d] =
      .ok (.path ⟨[0x31, 0x34],
        [0x31, 0x31, 0x2b, 0x2c, 0x31, 0x32, 0x2d, 0x2c, 0x31, 0x33, 0x2b],
        [0x34, 0x4d, 0x2c, 0x35, 0x4d]⟩) ∧
    Path.iter ⟨[0x31, 0x34],
        [0x31, 0x31, 0x2b, 0x2c, 0x31, 0x32, 0x2d, 0x2c, 0x31, 0x33, 0x2b],
        [0x34, 0x4d, 0x2c, 0x35, 0x4d]⟩ =
      [.ok ([0x31, 0x31], .Forward), .ok ([0x31, 0x32], .Backward),
        .ok ([0x31, 0x33], .Forward)] ∧
    Path.iterAll ⟨[0x31, 0x34],
        [0x31, 0x31, 0x2b, 0x2c, 0x31, 0x32, 0x2d, 0x2c, 0x31, 0x33, 0x2b],
        [0x34, 0x4d, 0x2c, 0x35, 0x4d]⟩ =
      .ok [([0x31, 0x31], .Forward), ([0x31, 0x32], .Backward),
        ([0x31, 0x33], .Forward)] := by
  exact ⟨by rfl, by rfl, by rfl⟩

/-- C10: the element function of the byte-string Path and O-Group
reference iterators is not total: an element that is empty or whose
final byte is not `+`/`-` makes the iterator panic; under the
precondition that every element is nonempty and ends in an orientation
byte, the iterators complete normally. -/
theorem iterator_element_not_total :
    (∀ (p : Path) (elem : List Nat), elem ∈ splitOnNat 0x2c p.segment_names →
      (elem = [] ∨ ∀ o, elem.getLast? = some o → isOrient o = false) →
      Path.iterAll p = .panicked) ∧
    (∀ (g : GroupO) (elem : List Nat), elem ∈ splitOnNat 0x20 g.var_field →
      (elem = [] ∨ ∀ o, elem.getLast? = some o → isOrient o = false) →
      GroupO.iterAll g = .panicked) ∧
    (∀ p : Path,
      (∀ elem ∈ splitOnNat 0x2c p.segment_names,
        ∃ body o, isOrient o = true ∧ elem = body ++ [o]) →
      ∃ out, Path.iterAll p = .ok out) ∧
    (∀ g : GroupO,
      (∀ elem ∈ splitOnNat 0x20 g.var_field,
        ∃ body o, isOrient o = true ∧ elem = body ++ [o]) →
      ∃ out, GroupO.iterAll g = .ok out) := by
  refine ⟨?_, ?_, ?_, ?_⟩
  · intro p elem hmem hbad
    apply seqPRes_panicked
    have : segment_id_ref elem = .panicked := segment_id_ref_panics.mpr hbad
    rw [← this]
    exact List.mem_map_of_mem _ hmem
  · intro g elem hmem hbad
    apply seqPRes_panicked
    have : segment_id_ref elem = .panicked := segment_id_ref_panics.mpr hbad
    rw [← this]
    exact List.mem_map_of_mem _ hmem
  · intro p hgood
    apply seqPRes_ok
    intro x hx
    obtain ⟨elem, hmem, hx⟩ := List.mem_map.mp hx
    obtain ⟨body, o, ho, helem⟩ := hgood elem hmem
    subst helem
    refine ⟨(body, if o = 0x2b then .Forward else .Backward), ?_⟩
    rw [← hx, segment_id_ref_ok ho]
  · intro g hgood
    apply seqPRes_ok
    intro x hx
    obtain ⟨elem, hmem, hx⟩ := List.mem_map.mp hx
    obtain ⟨body, o, ho, helem⟩ := hgood elem hmem
    subst helem
    refine ⟨(body, if o = 0x2b then .Forward else .Backward), ?_⟩
    rw [← hx, segment_id_ref_ok ho]

/-- Witness for C10: the path list `11+,12` panics on the element `12`;
the list `36+ 53-` of an O-Group iterates normally. -/
theorem iterator_element_not_total_witness :
    Path.iterAll ⟨[0x31, 0x34], [0x31, 0x31, 0x2b, 0x2c, 0x31, 0x32], [0x2a]⟩ =
      .panicked ∧
    GroupO.iterAll ⟨[0x31], [0x31, 0x36, 0x20, 0x32, 0x34]⟩ = .panicked ∧
    (∃ out, Path.iterAll ⟨[0x31, 0x34], [0x31, 0x31, 0x2b], [0x2a]⟩ = .ok out) ∧
    (∃ out, GroupO.iterAll
      ⟨[0x31], [0x33, 0x36, 0x2b, 0x20, 0x35, 0x33, 0x2d]⟩ = .ok out) :=
  ⟨iterator_element_not_total.1 _ [0x31, 0x32] (by decide)
      (Or.inr (fun o ho => by
        have h32 : o = 0x32 := by
          have : some 0x32 = some o := ho
          injection this with h
          exact h.symm
        subst h32
        decide)),
   iterator_element_not_total.2.1 _ [0x31, 0x36] (by decide)
      (Or.inr (fun o ho => by
        have h36 : o = 0x36 := by
          have : some 0x36 = some o := ho
          injection this with h
          exact h.symm
        subst h36
        decide)),
   iterator_element_not_total.2.2.1 _ (by
      intro elem he
      have : elem = [0x31, 0x31, 0x2b] := by
        have h2 : splitOnNat 0x2c [0x31, 0x31, 0x2b] = [[0x31, 0x31, 0x2b]] := by decide
        rw [h2] at he
        simpa using he
      subst this
      exact ⟨[0x31, 0x31], 0x2b, by decide, rfl⟩),
   iterator_element_not_total.2.2.2 _ (by
      intro elem he
      have h2 : splitOnNat 0x20 [0x33, 0x36, 0x2b, 0x20, 0x35, 0x33, 0x2d] =
          [[0x33, 0x36, 0x2b], [0x35, 0x33, 0x2d]] := by decide
      rw [h2] at he
      simp only [List.mem_cons, List.not_mem_nil, or_false] at he
      rcases he with he | he
      · subst he
        exact ⟨[0x33, 0x36], 0x2b, by decide, rfl⟩
      · subst he
        exact ⟨[0x35, 0x33], 0x2d, by decide, rfl⟩)⟩

/-- C3: for a fixed sequence of input lines with exactly one malformed
line (one on which `parse_gfa_line` fails) among otherwise-valid lines,
`parse_lines` under `Pedantic` returns that line's error, under
`IgnoreAll` returns Ok with the collection holding exactly the records
of the valid lines, and under `Safe` returns Ok precisely when the
malformation is of a recoverable kind (unknown line type or empty
line).  The tolerance policy of the missing error module is modelled
from the spec. -/
theorem tolerance_monotonicity {cfg : ParserCfg} {pre post : List (List Nat)}
    {bad : List Nat} {e : ParseError}
    (hpre : ∀ l ∈ pre, ∃ r, parse_gfa_line cfg l = .ok r)
    (hpost : ∀ l ∈ post, ∃ r, parse_gfa_line cfg l = .ok r)
    (hbad : parse_gfa_line cfg bad = .error e) :
    parse_lines cfg .Pedantic (pre ++ bad :: post) = .error e ∧
    parse_lines cfg .IgnoreAll (pre ++ bad :: post) =
      .ok (insertParsed cfg {} (pre ++ post)) ∧
    ((∃ g, parse_lines cfg .Safe (pre ++ bad :: post) = .ok g) ↔
      (e = .UnknownLineType ∨ e = .EmptyLine)) := by
  have hstep : ∀ tol : ParserTolerance,
      parse_lines cfg tol (pre ++ bad :: post) =
        (if ParseError.can_safely_continue e tol = true
         then parse_lines_go cfg tol (insertParsed cfg {} pre) post
         else .error e) := by
    intro tol
    unfold parse_lines
    rw [parse_lines_go_pre hpre, parse_lines_go, hbad]
  refine ⟨?_, ?_, ?_⟩
  · rw [hstep .Pedantic]
    have hc : ParseError.can_safely_continue e .Pedantic = false := rfl
    simp [hc]
  · unfold parse_lines
    rw [parse_lines_go_ignore_all]
    rw [show insertParsed cfg {} (pre ++ bad :: post) =
        insertParsed cfg (insertParsed cfg {} pre) (bad :: post) from
      insertParsed_append]
    rw [insertParsed_cons_err hbad,
      show insertParsed cfg {} (pre ++ post) =
        insertParsed cfg (insertParsed cfg {} pre) post from insertParsed_append]
  · constructor
    · rintro ⟨g, hg⟩
      by_cases hrec : ParseError.can_safely_continue e .Safe = true
      · exact (safe_recoverable e).mp hrec
      · rw [hstep .Safe, if_neg hrec] at hg
        exact Except.noConfusion hg
    · intro hrec
      have hc := (safe_recoverable e).mpr hrec
      rw [hstep .Safe, if_pos hc, parse_lines_go_all_ok hpost]
      exact ⟨_, rfl⟩

/-- Witness for C3: the valid segment line `S 1 A` followed by the
malformed line `Q`: Pedantic fails with UnknownLineType, IgnoreAll keeps
exactly the segment, Safe succeeds because the failure is recoverable. -/
theorem tolerance_monotonicity_witness :
    parse_lines ParserCfg.all .Pedantic [[0x53, 0x09, 0x31, 0x09, 0x41], [0x51]] =
      .error .UnknownLineType ∧
    parse_lines ParserCfg.all .IgnoreAll [[0x53, 0x09, 0x31, 0x09, 0x41], [0x51]] =
      .ok (insertParsed ParserCfg.all {} [[0x53, 0x09, 0x31, 0x09, 0x41]]) ∧
    ((∃ g, parse_lines ParserCfg.all .Safe
        [[0x53, 0x09, 0x31, 0x09, 0x41], [0x51]] = .ok g) ↔
      ((ParseError.UnknownLineType = ParseError.UnknownLineType) ∨
        (ParseError.UnknownLineType = ParseError.EmptyLine))) := by
  have h := @tolerance_monotonicity ParserCfg.all [[0x53, 0x09, 0x31, 0x09, 0x41]]
    [] [0x51] .UnknownLineType
    (by
      intro l hl
      simp only [List.mem_cons, List.not_mem_nil, or_false] at hl
      subst hl
      exact ⟨.segment ⟨[0x31], [0x41]⟩, rfl⟩)
    (by intro l hl; cases hl)
    rfl
  simpa using h

/-- C5 (amended): a missing required field fails the record with the
MissingFields condition, wrapped with the raw line; a present field
token fails with InvalidField carrying the field's logical name only
when the token contains no substring matching the sub-grammar (here: a
Segment sequence token with no `*` and no `[A-Za-z=.]` byte, and a Link
overlap token with no `*` and no digit); a token that fails the
sub-grammar as a whole but contains a matching substring is accepted
with the leftmost match as the field value (see
`substring_field_accepted`). -/
theorem field_error_amended :
    (∀ name : List Nat, ValidId name →
      parse_gfa_line ParserCfg.all ([0x53, 0x09] ++ name) =
        .error (.InvalidLine .MissingFields ([0x53, 0x09] ++ name))) ∧
    (∀ name seq : List Nat, ValidId name → seq ≠ [] →
      (∀ b ∈ seq, isPrintable b = true ∧ b ≠ 0x2a ∧ isSeqChar b = false) →
      parse_gfa_line ParserCfg.all ([0x53, 0x09] ++ name ++ [0x09] ++ seq) =
        .error (.InvalidLine (.InvalidField "Sequence")
          ([0x53, 0x09] ++ name ++ [0x09] ++ seq))) ∧
    (∀ ov : List Nat, ov ≠ [] →
      (∀ b ∈ ov, isPrintable b = true ∧ b ≠ 0x2a ∧ isDigit b = false) →
      parse_gfa_line ParserCfg.all
          ([0x4c, 0x09, 0x31, 0x09, 0x2b, 0x09, 0x32, 0x09, 0x2d, 0x09] ++ ov) =
        .error (.InvalidLine (.InvalidField "Overlap")
          ([0x4c, 0x09, 0x31, 0x09, 0x2b, 0x09, 0x32, 0x09, 0x2d, 0x09] ++ ov))) := by
  refine ⟨?_, ?_, ?_⟩
  · intro name hn
    have htoks : splitTab (trimNats ([0x53, 0x09] ++ name)) = [[0x53], name] := by
      have h2 := tokens_of_line (show isPrintable 0x53 = true from rfl)
        (fun f hf => absurd hf (List.not_mem_nil f)) hn.2 hn.1
      exact h2
    rw [parse_gfa_line_cons htoks]
    unfold dispatch
    rw [if_neg (by decide), if_pos ⟨rfl, rfl⟩]
    have hseg : Segment.parse_line [name] = .error .MissingFields := by
      simp [Segment.parse_line, parse_next_id, next_field, parse_sequence,
        BStrId.parse_id, findRun_all hn.1 hn.2, Bind.bind, Except.bind]
    rw [hseg]
  · intro name seq hn hsne hseq
    have hsp : ∀ b ∈ seq, isPrintable b = true := fun b hb => (hseq b hb).1
    have htoks : splitTab (trimNats ([0x53, 0x09] ++ name ++ [0x09] ++ seq)) =
        [[0x53], name, seq] := by
      have h2 := @tokens_of_line 0x53 [name] seq (by decide)
        (by
          intro f hf b hb
          simp only [List.mem_cons, List.not_mem_nil, or_false] at hf
          subst hf
          exact hn.2 b hb)
        hsp hsne
      simpa using h2
    rw [parse_gfa_line_cons htoks]
    unfold dispatch
    rw [if_neg (by decide), if_pos ⟨rfl, rfl⟩]
    have hfind : seqFind seq = none :=
      seqFind_none (fun b hb => ⟨(hseq b hb).2.1, (hseq b hb).2.2⟩)
    have hseg : Segment.parse_line [name, seq] =
        .error (.InvalidField "Sequence") := by
      simp [Segment.parse_line, parse_next_id, next_field, parse_sequence,
        BStrId.parse_id, findRun_all hn.1 hn.2, hfind, Bind.bind, Except.bind]
    rw [hseg]
  · intro ov hovne hov
    have hovp : ∀ b ∈ ov, isPrintable b = true := fun b hb => (hov b hb).1
    have htoks : splitTab (trimNats
        ([0x4c, 0x09, 0x31, 0x09, 0x2b, 0x09, 0x32, 0x09, 0x2d, 0x09] ++ ov)) =
        [[0x4c], [0x31], [0x2b], [0x32], [0x2d], ov] := by
      have h2 := @tokens_of_line 0x4c [[0x31], [0x2b], [0x32], [0x2d]] ov
        (by decide) (by decide) hovp hovne
      simpa using h2
    rw [parse_gfa_line_cons htoks]
    unfold dispatch
    rw [if_neg (by decide), if_neg (by rintro ⟨hc, _⟩; cases hc),
      if_pos ⟨rfl, rfl⟩]
    have hfind : overlapFind ov = none :=
      overlapFind_none (fun b hb => ⟨(hov b hb).2.1, (hov b hb).2.2⟩)
    have hlink : Link.parse_line [[0x31], [0x2b], [0x32], [0x2d], ov] =
        .error (.InvalidField "Overlap") := by
      simp [Link.parse_line, parse_next_id, next_field, parse_orientation,
        BStrId.parse_id, parse_overlap, hfind, Bind.bind, Except.bind,
        findRun, Orientation.from_bytes_plus_minus, isPrintable, List.takeWhile]
    rw [hlink]

/-- C5 counterexample: the segment line `S S1 1A` has a sequence token
`1A` that does not match the sequence sub-grammar (`*` or
`[A-Za-z=.]+`), yet the record parse succeeds with the leftmost matching
substring `A` as the sequence, instead of failing with InvalidField. -/
theorem substring_field_accepted :
    parse_gfa_line ParserCfg.all [0x53, 0x09, 0x53, 0x31, 0x09, 0x31, 0x41] =
      .ok (.segment ⟨[0x53, 0x31], [0x41]⟩) := by
  rfl

/-- Witness for C5: the segment line `S 1` fails with MissingFields, the
segment line `S 1 1` (sequence token `1`) fails with
InvalidField "Sequence", and the link line `L 1 + 2 - z` fails with
InvalidField "Overlap". -/
theorem field_error_amended_witness :
    parse_gfa_line ParserCfg.all ([0x53, 0x09] ++ [0x31]) =
      .error (.InvalidLine .MissingFields ([0x53, 0x09] ++ [0x31])) ∧
    parse_gfa_line ParserCfg.all ([0x53, 0x09] ++ [0x31] ++ [0x09] ++ [0x31]) =
      .error (.InvalidLine (.InvalidField "Sequence")
        ([0x53, 0x09] ++ [0x31] ++ [0x09] ++ [0x31])) ∧
    parse_gfa_line ParserCfg.all
        ([0x4c, 0x09, 0x31, 0x09, 0x2b, 0x09, 0x32, 0x09, 0x2d, 0x09] ++ [0x7a]) =
      .error (.InvalidLine (.InvalidField "Overlap")
        ([0x4c, 0x09, 0x31, 0x09, 0x2b, 0x09, 0x32, 0x09, 0x2d, 0x09] ++ [0x7a])) :=
  ⟨field_error_amended.1 [0x31] (by decide),
   field_error_amended.2.1 [0x31] [0x31] (by decide) (by decide) (by decide),
   field_error_amended.2.2 [0x7a] (by decide) (by decide)⟩

/-- C7 (amended): the byte-string strategy's parse_id returns None
exactly when the token contains no `[!-~]` byte (in particular on the
empty token); a token with forbidden bytes alongside printable ones is
not rejected — the leftmost printable run is returned (see
`forbidden_byte_accepted`).  The dense-integer strategy's parse_id never
returns None: on a token with no `[!-~]` byte (including the empty
token) it panics instead. -/
theorem parse_id_amended :
    (∀ input : List Nat, BStrId.parse_id input = none ↔
      ∀ b ∈ input, isPrintable b = false) ∧
    (∀ input : List Nat, (∀ b ∈ input, isPrintable b = false) →
      UsizeId.parse_id input = .panicked) ∧
    (∀ input : List Nat, UsizeId.parse_id input ≠ .ok none) := by
  refine ⟨fun input => findRun_none, ?_, ?_⟩
  · intro input h
    have hany : input.any isPrintable = false :=
      List.any_eq_false.mpr (fun b hb => by rw [h b hb]; simp)
    unfold UsizeId.parse_id
    simp [hany]
  · intro input
    unfold UsizeId.parse_id
    repeat' split
    all_goals simp

/-- C7 counterexample: the token `SPACE a` contains the forbidden byte
0x20 yet `parse_id` succeeds with the printable run `a` for the
byte-string strategy; and the empty token makes the dense-integer
strategy panic instead of returning None. -/
theorem forbidden_byte_accepted :
    BStrId.parse_id [0x20, 0x61] = some [0x61] ∧
    UsizeId.parse_id [] = .panicked := by
  exact ⟨by rfl, by rfl⟩

/-- Witness for C7: the empty token and the all-forbidden token `0x01`
give None for the byte-string strategy; the dense-integer strategy
panics on the all-forbidden token `0x1f` and returns a value (never
None) on `a`. -/
theorem parse_id_amended_witness :
    (BStrId.parse_id [] = none ↔ ∀ b ∈ ([] : List Nat), isPrintable b = false) ∧
    UsizeId.parse_id [0x1f] = .panicked ∧
    UsizeId.parse_id [0x61] ≠ .ok none :=
  ⟨parse_id_amended.1 [],
   parse_id_amended.2.1 [0x1f] (by decide),
   parse_id_amended.2.2 [0x61]⟩

/-- C2 (amended): for the dense-integer (usize) identifier strategy, an
input whose concatenated character-code string exceeds 20 decimal digits
is rejected by a panic (an unrecoverable process abort), not by an
EncodingOverflow error value returned to the caller, in each of
parse_id, parse_opt_id and parse_ref (the latter for a body of that
size); there is no silent truncation or wraparound. -/
theorem overflow_panics (input res : List Nat) (hne : input ≠ [])
    (hall : ∀ b ∈ input, isPrintable b = true)
    (henc : encodeAll input = some res) (hlen : 20 < res.length) :
    UsizeId.parse_id input = .panicked ∧
    UsizeId.parse_opt_id input = .panicked ∧
    ∀ o, isOrient o = true → UsizeId.parse_ref (input ++ [o]) = .panicked := by
  have hany : input.any isPrintable = true := by
    cases input with
    | nil => exact absurd rfl hne
    | cons b bs =>
      exact List.any_eq_true.mpr
        ⟨b, List.mem_cons_self .., hall b (List.mem_cons_self ..)⟩
  have hcond : ¬(1 ≤ res.length ∧ res.length ≤ 20) := by omega
  refine ⟨?_, ?_, ?_⟩
  · unfold UsizeId.parse_id
    simp [hany, henc, hcond]
  · unfold UsizeId.parse_opt_id
    simp [hany, henc, hcond]
  · intro o ho
    have href := refFind_body_orient hne hall ho
    unfold UsizeId.parse_ref
    simp [href, List.getLast?_concat, ho, List.dropLast_concat, henc, hcond]

/-- C2 counterexample: the identifier `aaaaaaaaaaa` (eleven bytes, each
encoding to the two digits 97) yields a 22-digit code string; all three
entry points abort with a panic — no EncodingOverflow error value ever
reaches the caller. -/
theorem overflow_not_error_value :
    UsizeId.parse_id (List.replicate 11 0x61) = .panicked ∧
    UsizeId.parse_opt_id (List.replicate 11 0x61) = .panicked ∧
    UsizeId.parse_ref (List.replicate 11 0x61 ++ [0x2b]) = .panicked := by
  exact ⟨by decide, by decide, by decide⟩

/-- Witness for C2: the amended overflow behavior evaluated on the
identifier of eleven `a` bytes, whose code string has 22 digits. -/
theorem overflow_panics_witness :
    UsizeId.parse_id [0x62, 0x62, 0x62, 0x62, 0x62, 0x62, 0x62, 0x62, 0x62, 0x62,
        0x62] = .panicked ∧
    UsizeId.parse_opt_id [0x62, 0x62, 0x62, 0x62, 0x62, 0x62, 0x62, 0x62, 0x62,
        0x62, 0x62] = .panicked ∧
    UsizeId.parse_ref ([0x62, 0x62, 0x62, 0x62, 0x62, 0x62, 0x62, 0x62, 0x62,
        0x62, 0x62] ++ [0x2d]) = .panicked := by
  have h := overflow_panics
    [0x62, 0x62, 0x62, 0x62, 0x62, 0x62, 0x62, 0x62, 0x62, 0x62, 0x62]
    [0x39, 0x38, 0x39, 0x38, 0x39, 0x38, 0x39, 0x38, 0x39, 0x38, 0x39, 0x38,
      0x39, 0x38, 0x39, 0x38, 0x39, 0x38, 0x39, 0x38, 0x39, 0x38]
    (by decide) (by decide) (by decide) (by decide)
  exact ⟨h.1, h.2.1, h.2.2 0x2d (by decide)⟩

theorem encodeAll_ne_nil {body res : List Nat} (hne : body ≠ [])
    (h : encodeAll body = some res) : res ≠ [] := by
  cases body with
  | nil => exact absurd rfl hne
  | cons b bs =>
    unfold encodeAll at h
    cases hc : charCode b with
    | none => rw [hc] at h; cases h
    | some c =>
      rw [hc] at h
      cases he2 : encodeAll bs with
      | none => rw [he2] at h; cases h
      | some rest2 =>
        rw [he2] at h
        simp only [Option.some.injEq] at h
        subst h
        intro hcontra
        exact (@natDecNats_ne_nil c) (List.append_eq_nil.mp hcontra).1

/-- C4 (amended): the byte-string strategy's parse_ref returns the
leftmost `[!-~]+[+-]` match with its trailing orientation byte still
attached and no orientation pairing, and it can succeed on tokens whose
final byte is not an orientation (whenever some earlier substring
matches); the dense-integer strategy's parse_ref panics — it does not
return None — when the token contains no `[!-~]+[+-]` substring or when
the token's final byte is not `+`/`-`; when the final byte is an
orientation and the body's code string fits in 20 digits it returns the
encoded body with one appended orientation digit, `.ok()`-converted so
that a 21-digit overflow gives None. -/
theorem parse_ref_amended :
    (∀ input r : List Nat, BStrId.parse_ref input = some r →
      r ≠ [] ∧ ∃ o, isOrient o = true ∧ r.getLast? = some o) ∧
    (∀ input : List Nat, refFind input = none →
      UsizeId.parse_ref input = .panicked) ∧
    (∀ (input : List Nat) (c : Nat), input.getLast? = some c →
      isOrient c = false → UsizeId.parse_ref input = .panicked) ∧
    (∀ (body res : List Nat) (o : Nat), body ≠ [] →
      (∀ b ∈ body, isPrintable b = true) → isOrient o = true →
      encodeAll body = some res → res.length ≤ 20 →
      UsizeId.parse_ref (body ++ [o]) =
        .ok (decValue? (res ++ [if o = 0x2b then 0x30 else 0x31]))) := by
  refine ⟨?_, ?_, ?_, ?_⟩
  · intro input r h
    exact refFind_last_orient h
  · intro input h
    unfold UsizeId.parse_ref
    simp [h]
  · intro input c hlast hori
    unfold UsizeId.parse_ref
    cases hf : refFind input with
    | none => simp [hf]
    | some m => simp [hf, hlast, hori]
  · intro body res o hne hall ho henc hlen
    have href := refFind_body_orient hne hall ho
    have hres1 : 1 ≤ res.length :=
      List.length_pos.mpr (encodeAll_ne_nil hne henc)
    unfold UsizeId.parse_ref
    simp [href, List.getLast?_concat, ho, List.dropLast_concat, henc, hres1, hlen]

/-- C4 counterexample: on the token `11+` the byte-string parse_ref
returns the whole match `11+` with its orientation byte still attached
(not the body `11` paired with an orientation); on the token `1+1`,
which has no trailing orientation byte, it still succeeds with `1+`;
and on `ab`, which has no orientation byte at all, the dense-integer
parse_ref panics instead of returning None. -/
theorem parse_ref_keeps_marker :
    BStrId.parse_ref [0x31, 0x31, 0x2b] = some [0x31, 0x31, 0x2b] ∧
    BStrId.parse_ref [0x31, 0x2b, 0x31] = some [0x31, 0x2b] ∧
    UsizeId.parse_ref [0x61, 0x62] = .panicked := by
  exact ⟨by decide, by decide, by decide⟩

/-- Witness for C4: the amended parse_ref behavior evaluated on `11+`
(byte-string match retains the marker), on `zz` (no match: usize
panics), on `1+1` via its final byte `1` (not an orientation: usize
panics), and on the body `7` with orientation `-` (usize returns the
code of `7` with the appended digit 1). -/
theorem parse_ref_amended_witness :
    ([0x31, 0x31, 0x2b] ≠ ([] : List Nat) ∧
      ∃ o, isOrient o = true ∧ ([0x31, 0x31, 0x2b] : List Nat).getLast? = some o) ∧
    UsizeId.parse_ref [0x7a, 0x7a] = .panicked ∧
    UsizeId.parse_ref [0x31, 0x2b, 0x31] = .panicked ∧
    UsizeId.parse_ref ([0x37] ++ [0x2d]) =
      .ok (decValue? ([0x37] ++ [if (0x2d : Nat) = 0x2b then 0x30 else 0x31])) :=
  ⟨parse_ref_amended.1 [0x31, 0x31, 0x2b] [0x31, 0x31, 0x2b] (by decide),
   parse_ref_amended.2.1 [0x7a, 0x7a] (by decide),
   parse_ref_amended.2.2.1 [0x31, 0x2b, 0x31] 0x31 (by decide) (by decide),
   parse_ref_amended.2.2.2 [0x37] [0x37] 0x2d (by decide) (by decide) (by decide)
     (by decide) (by decide)⟩

/-- C8 (amended): `parse_file` opens the file first and validates the
extension only afterwards: a path whose open fails yields the I/O error
even when its extension is outside the allow-list; a successfully opened
path with no (UTF-8) extension panics on the `unwrap`; a successfully
opened path with an extension outside `gfa`/`gfa2` yields the
unsupported-extension error without parsing any record data; and an
allow-listed extension proceeds to line parsing under the tolerance
policy. -/
theorem parse_file_amended :
    (∀ (cfg : ParserCfg) (tol : ParserTolerance) (p : FsPath),
      parse_file cfg tol p none = .ok (.error .IoError)) ∧
    (∀ (cfg : ParserCfg) (tol : ParserTolerance) (lines : List (List Nat)),
      parse_file cfg tol ⟨none⟩ (some lines) = .panicked) ∧
    (∀ (cfg : ParserCfg) (tol : ParserTolerance) (e : List Nat)
      (lines : List (List Nat)),
      e ≠ [0x67, 0x66, 0x61, 0x32] → e ≠ [0x67, 0x66, 0x61] →
      parse_file cfg tol ⟨some e⟩ (some lines) = .ok (.error .ExtensionError)) ∧
    (∀ (cfg : ParserCfg) (tol : ParserTolerance) (lines : List (List Nat)),
      parse_file cfg tol ⟨some [0x67, 0x66, 0x61]⟩ (some lines) =
        .ok (parse_lines cfg tol lines)) := by
  refine ⟨fun cfg tol p => rfl, fun cfg tol lines => rfl, ?_, ?_⟩
  · intro cfg tol e lines h1 h2
    show (if e = [0x67, 0x66, 0x61, 0x32] ∨ e = [0x67, 0x66, 0x61]
      then PRes.ok (parse_lines cfg tol lines)
      else PRes.ok (.error .ExtensionError)) = PRes.ok (.error .ExtensionError)
    rw [if_neg (by rintro (hc | hc); exacts [h1 hc, h2 hc])]
  · intro cfg tol lines
    show (if ([0x67, 0x66, 0x61] : List Nat) = [0x67, 0x66, 0x61, 0x32] ∨
        ([0x67, 0x66, 0x61] : List Nat) = [0x67, 0x66, 0x61]
      then PRes.ok (parse_lines cfg tol lines)
      else PRes.ok (.error .ExtensionError)) = PRes.ok (parse_lines cfg tol lines)
    rw [if_pos (Or.inr rfl)]

/-- C8 counterexample: a path with the disallowed extension `txt` whose
open fails is reported as the I/O error, not the unsupported-extension
error — the extension allow-list is not consulted before opening. -/
theorem extension_checked_after_open :
    parse_file ParserCfg.all .Pedantic ⟨some [0x74, 0x78, 0x74]⟩ none =
      .ok (.error .IoError) ∧
    parse_file ParserCfg.all .Pedantic ⟨some [0x74, 0x78, 0x74]⟩ none ≠
      .ok (.error .ExtensionError) := by
  refine ⟨by rfl, fun h => ?_⟩
  have h2 : (Except.error ParseError.IoError : Except ParseError GFA) =
      .error .ExtensionError := by
    have h1 : parse_file ParserCfg.all .Pedantic ⟨some [0x74, 0x78, 0x74]⟩ none =
        .ok (.error .IoError) := rfl
    rw [h1] at h
    injection h
  injection h2 with h3
  exact ParseError.noConfusion h3

/-- Witness for C8: the amended parse_file behavior evaluated on a
failing open, an extension-less path, the disallowed extension `txt`,
and the allowed extension `gfa` with no lines. -/
theorem parse_file_amended_witness :
    parse_file ParserCfg.all .Safe ⟨some [0x74, 0x78, 0x74]⟩ none =
      .ok (.error .IoError) ∧
    parse_file ParserCfg.all .Safe ⟨none⟩ (some []) = .panicked ∧
    parse_file ParserCfg.all .Safe ⟨some [0x74, 0x78, 0x74]⟩ (some []) =
      .ok (.error .ExtensionError) ∧
    parse_file ParserCfg.all .Safe ⟨some [0x67, 0x66, 0x61]⟩ (some []) =
      .ok (parse_lines ParserCfg.all .Safe []) :=
  ⟨parse_file_amended.1 ParserCfg.all .Safe ⟨some [0x74, 0x78, 0x74]⟩,
   parse_file_amended.2.1 ParserCfg.all .Safe [],
   parse_file_amended.2.2.1 ParserCfg.all .Safe [0x74, 0x78, 0x74] [] (by decide)
     (by decide),
   parse_file_amended.2.2.2 ParserCfg.all .Safe []⟩

end RsGfa2
